import Mathlib

/-!
# Verification of the ATS resume scoring engine

Shallow embedding of `resume_scanner/ats_scorer.py`.

Conventions of the embedding:
* Python strings are Lean `String`s (processed through their `List Char` data).
* Python floats are modelled as rationals `ℚ`; `round(x, n)` is modelled as
  rounding to the nearest multiple of `10^-n` (ties away from the even-digit
  subtleties of binary floats, which none of the statements below touch).
* `re.sub`/`re.search`/`re.findall` calls are modelled by direct scanners with
  the semantics of the concrete patterns used by the source
  (`http\S+|www\S+`, `\S+@\S+`, `\s+`, word-boundary alternations of literal
  section names, and the multiline bullet pattern).
* The character classes `\s`, `\w` and `str.lower` are modelled at ASCII
  granularity, which covers every literal the source manipulates.
* The two calls into scikit-learn (`TfidfVectorizer.fit_transform` /
  `cosine_similarity`) are an external library, not code of this repository;
  they are abstracted as an oracle parameter `tfidf : Option ℚ`:
  `some s` means the vectorization path succeeded and produced cosine
  similarity `s`, `none` means it raised (e.g. the empty-vocabulary error),
  which in the source diverts control to the word-overlap fallback.
* Python's stable sorts (`sorted`, `Counter.most_common`) are modelled with
  `List.insertionSort`, which is stable; on the (duplicate-free) lists being
  sorted here with injective tie-broken keys the sorted output is unique, so
  the model is exact.
* Output strings that interpolate values (penalty messages, suggestions) are
  modelled as tagged values carrying the same interpolated data.
-/

namespace ATS

/-- Python whitespace (`str.split`, regex `\s`), ASCII part:
space, tab, newline, carriage return, vertical tab, form feed. -/
def pyIsSpace (c : Char) : Bool :=
  c = ' ' || c = '\t' || c = '\n' || c = '\r' || c = '\x0b' || c = '\x0c'

/-- `string.punctuation` from the Python standard library. -/
def pythonPunctuation : List Char :=
  ['!', '"', '#', '$', '%', '&', Char.ofNat 39, '(', ')', '*', '+', ',', '-',
   '.', '/', ':', ';', '<', '=', '>', '?', '@', '[', '\\', ']', '^', '_',
   Char.ofNat 96, '{', '|', '}', '~']

/-- Apply `f` to every maximal run of non-whitespace characters, leaving the
whitespace characters in place.  `acc` holds the (reversed) current run.
Both regex substitutions below (`http\S+|www\S+` and `\S+@\S+`) only ever
delete characters inside a single such run, so `re.sub` is exactly a map
over the non-whitespace runs. -/
def mapRunsAux (f : List Char → List Char) : List Char → List Char → List Char
  | acc, [] => f acc.reverse
  | acc, c :: cs =>
    if pyIsSpace c then f acc.reverse ++ c :: mapRunsAux f [] cs
    else mapRunsAux f (c :: acc) cs

def mapRuns (f : List Char → List Char) (cs : List Char) : List Char :=
  mapRunsAux f [] cs

/-- Does the pattern `http\S+|www\S+` match at the head of the (whitespace
free) run `r`?  `http\S+` needs at least one further character after the
literal, hence the length conditions. -/
def urlHere (r : List Char) : Bool :=
  (List.isPrefixOf ['h', 't', 't', 'p'] r && decide (5 ≤ r.length)) ||
  (List.isPrefixOf ['w', 'w', 'w'] r && decide (4 ≤ r.length))

/-- Effect of `re.sub(r'http\S+|www\S+', '', ·)` on one non-whitespace run:
the leftmost match extends to the end of the run (greedy `\S+`), so the run
is truncated at the first matching position. -/
def urlRunDel : List Char → List Char
  | [] => []
  | c :: cs => if urlHere (c :: cs) then [] else c :: urlRunDel cs

/-- Does `\S+@\S+` match inside one non-whitespace run?  It does exactly when
the run has an `'@'` that is neither its first nor its last character, and
then the (leftmost, greedy) match is the whole run. -/
def emailRunMatch (r : List Char) : Bool :=
  ((r.drop 1).dropLast).contains '@'

/-- Effect of `re.sub(r'\S+@\S+', '', ·)` on one non-whitespace run. -/
def emailRunDel (r : List Char) : List Char :=
  if emailRunMatch r then [] else r

/-- The characters removed by the source's punctuation deletion:
`string.punctuation` minus hyphen and period. -/
def removablePunct (c : Char) : Bool :=
  pythonPunctuation.contains c && !(c = '-') && !(c = '.')

def stripPunct (cs : List Char) : List Char :=
  cs.filter (fun c => !removablePunct c)

/-- `re.sub(r'\s+', ' ', ·)`: every maximal whitespace run becomes one space. -/
def collapseWs : List Char → List Char
  | [] => []
  | c :: cs =>
    if pyIsSpace c then
      match cs with
      | [] => [' ']
      | d :: _ => if pyIsSpace d then collapseWs cs else ' ' :: collapseWs cs
    else c :: collapseWs cs

/-- Python `str.strip()` (whitespace trim at both ends). -/
def pyStrip (cs : List Char) : List Char :=
  (cs.dropWhile pyIsSpace).rdropWhile pyIsSpace

/-- `preprocess_text` on the character list: lowercase, delete URL-like
substrings, delete email-like substrings, delete punctuation except `-` `.`,
collapse whitespace, trim. -/
def preprocessL (cs : List Char) : List Char :=
  pyStrip (collapseWs (stripPunct
    (mapRuns emailRunDel (mapRuns urlRunDel (cs.map Char.toLower)))))

/-- `preprocess_text` from the source. -/
def preprocess_text (s : String) : String :=
  ⟨preprocessL s.data⟩

/-- Python `str.split()` (no argument): split on whitespace runs, no empty
tokens.  `acc` holds the reversed current token. -/
def pySplitAux : List Char → List Char → List (List Char)
  | acc, [] => if acc.isEmpty then [] else [acc.reverse]
  | acc, c :: cs =>
    if pyIsSpace c then
      if acc.isEmpty then pySplitAux [] cs else acc.reverse :: pySplitAux [] cs
    else pySplitAux (c :: acc) cs

def pySplitL (cs : List Char) : List String :=
  (pySplitAux [] cs).map fun l => ⟨l⟩

def pySplit (s : String) : List String :=
  pySplitL s.data

/-- Model of Python's `round(x, 2)` (see file header). -/
def round2 (q : ℚ) : ℚ := (round (q * 100) : ℤ) / 100

/-- Model of Python's `round(x, 4)`. -/
def round4 (q : ℚ) : ℚ := (round (q * 10000) : ℤ) / 10000

/-- Model of Python's `round(x, 1)`. -/
def round1 (q : ℚ) : ℚ := (round (q * 10) : ℤ) / 10

/-- Number of occurrences of the token `w` (`Counter` count). -/
def wordFreq (ws : List String) (w : String) : Nat := ws.count w

/-- Index of the first occurrence of `w` in `ws` (`ws.length` if absent):
the insertion-order position that `Counter`/`dict` preserve. -/
def firstIdx : List String → String → Nat
  | [], _ => 0
  | x :: xs, w => if x = w then 0 else firstIdx xs w + 1

/-- The distinct tokens of `ws` in first-occurrence order: the key order of
`collections.Counter(ws)`. -/
def dedupFirst : List String → List String
  | [] => []
  | w :: ws => w :: (dedupFirst ws).filter (fun x => x ≠ w)

/-- The order used by `Counter.most_common`: frequency descending, ties by
first-occurrence (stability of Python's sort). -/
def kwRel (ws : List String) (a b : String) : Prop :=
  wordFreq ws b < wordFreq ws a ∨
    (wordFreq ws a = wordFreq ws b ∧ firstIdx ws a ≤ firstIdx ws b)

instance (ws : List String) : DecidableRel (kwRel ws) := fun a b => by
  unfold kwRel; infer_instance

instance (ws : List String) : IsTotal String (kwRel ws) where
  total a b := by
    unfold kwRel
    rcases lt_trichotomy (wordFreq ws a) (wordFreq ws b) with h | h | h
    · exact Or.inr (Or.inl h)
    · rcases le_total (firstIdx ws a) (firstIdx ws b) with h2 | h2
      · exact Or.inl (Or.inr ⟨h, h2⟩)
      · exact Or.inr (Or.inr ⟨h.symm, h2⟩)
    · exact Or.inl (Or.inl h)

instance (ws : List String) : IsTrans String (kwRel ws) where
  trans a b c hab hbc := by
    unfold kwRel at *
    rcases hab with h1 | ⟨e1, i1⟩ <;> rcases hbc with h2 | ⟨e2, i2⟩
    · exact Or.inl (h2.trans h1)
    · exact Or.inl (e2 ▸ h1)
    · exact Or.inl (e1 ▸ h2)
    · exact Or.inr ⟨e1.trans e2, i1.trans i2⟩

/-- The token list `words` of `extract_keywords`: the normalized text
tokenized on whitespace, tokens shorter than `min_length` discarded. -/
def keywordTokens (text : String) (min_length : Nat) : List String :=
  (pySplit (preprocess_text text)).filter fun w => min_length ≤ w.length

/-- The strict version of `kwRel`: what `Counter.most_common` guarantees
between *distinct* entries of its output. -/
def kwStrictRel (ws : List String) (a b : String) : Prop :=
  wordFreq ws b < wordFreq ws a ∨
    (wordFreq ws a = wordFreq ws b ∧ firstIdx ws a < firstIdx ws b)

/-- `extract_keywords` from the source: tokenize the normalized text, drop
tokens shorter than `min_length`, and return the `max_keywords` most common
tokens (frequency descending, first-seen tie-break). -/
def extract_keywords (text : String) (min_length : Nat) (max_keywords : Nat) :
    List String :=
  ((dedupFirst (keywordTokens text min_length)).insertionSort
    (kwRel (keywordTokens text min_length))).take max_keywords

/-- Lexicographic (code-point) comparison of character lists: the order in
which Python `sorted` arranges strings. -/
def lexLeB : List Char → List Char → Bool
  | [], _ => true
  | _ :: _, [] => false
  | a :: as, b :: bs => if a < b then true else if b < a then false else lexLeB as bs

/-- Lexicographic (code-point) order on strings, as used by Python `sorted`. -/
def lexRel (a b : String) : Prop := lexLeB a.data b.data = true

instance : DecidableRel lexRel := fun a b => by
  unfold lexRel; infer_instance

instance : IsTotal String lexRel where
  total a b := by
    unfold lexRel
    have key : ∀ as bs : List Char, lexLeB as bs = true ∨ lexLeB bs as = true := by
      intro as
      induction as with
      | nil => exact fun _ => Or.inl rfl
      | cons a as ih =>
        intro bs
        cases bs with
        | nil => exact Or.inr rfl
        | cons b bs =>
          rcases lt_trichotomy a b with h | h | h
          · exact Or.inl (by simp [lexLeB, h])
          · subst h
            rcases ih bs with h2 | h2
            · exact Or.inl (by simp [lexLeB, h2])
            · exact Or.inr (by simp [lexLeB, h2])
          · exact Or.inr (by simp [lexLeB, h])
    exact key a.data b.data

instance : IsTrans String lexRel where
  trans a b c h1 h2 := by
    unfold lexRel at *
    have key : ∀ as bs cs : List Char, lexLeB as bs = true → lexLeB bs cs = true →
        lexLeB as cs = true := by
      intro as
      induction as with
      | nil => intro bs cs _ _; rfl
      | cons a as ih =>
        intro bs cs h1 h2
        cases bs with
        | nil => simp [lexLeB] at h1
        | cons b bs =>
          cases cs with
          | nil => simp [lexLeB] at h2
          | cons c cs =>
            rcases lt_trichotomy a b with hab | hab | hab
            · rcases lt_trichotomy b c with hbc | hbc | hbc
              · simp [lexLeB, hab.trans hbc]
              · subst hbc; simp [lexLeB, hab]
              · simp only [lexLeB] at h2
                rw [if_neg (lt_asymm hbc), if_pos hbc] at h2
                simp at h2
            · subst hab
              simp only [lexLeB] at h1
              rw [if_neg (lt_irrefl a), if_neg (lt_irrefl a)] at h1
              rcases lt_trichotomy a c with hac | hac | hac
              · simp [lexLeB, hac]
              · subst hac
                simp only [lexLeB] at h2 ⊢
                rw [if_neg (lt_irrefl a), if_neg (lt_irrefl a)] at h2 ⊢
                exact ih bs cs h1 h2
              · simp only [lexLeB] at h2
                rw [if_neg (lt_asymm hac), if_pos hac] at h2
                simp at h2
            · simp only [lexLeB] at h1
              rw [if_neg (lt_asymm hab), if_pos hab] at h1
              simp at h1
    exact key a.data b.data c.data h1 h2

/-- The `details` dictionary of `score_keyword_matching`. -/
structure KeywordDetails where
  matched_keywords : List String
  missing_keywords : List String
  total_jd_keywords : Nat
  matched_count : Nat
  match_percentage : ℚ
deriving DecidableEq

/-- `score_keyword_matching` from the source. -/
def score_keyword_matching (resume_text jd_text : String) :
    ℚ × KeywordDetails :=
  let jd_keywords := extract_keywords jd_text 3 40
  let resume_words := pySplit (preprocess_text resume_text)
  let matched := (jd_keywords.filter
    (fun k => resume_words.contains k)).insertionSort lexRel
  let missing := (jd_keywords.filter
    (fun k => !resume_words.contains k)).insertionSort lexRel
  let total : Nat := if jd_keywords.isEmpty then 1 else jd_keywords.length
  let ratio : ℚ := (matched.length : ℚ) / (total : ℚ)
  (ratio * 40,
   { matched_keywords := matched
     missing_keywords := missing
     total_jd_keywords := total
     matched_count := matched.length
     match_percentage := round2 (ratio * 100) })

/-- Regex `\w` at ASCII granularity (the section patterns and the lowercased
resume text only ever exercise ASCII word boundaries). -/
def IsWordChar (c : Char) : Bool := c.isAlpha || c.isDigit || c = '_'

/-- Does the literal `pat` occur in `text` at position `i` with a word
boundary on each side?  All section-pattern alternatives start and end with a
word character, so `\b` there means exactly: the adjacent character, if any,
is not a word character. -/
def boundaryMatchAt (text pat : List Char) (i : Nat) : Bool :=
  List.isPrefixOf pat (text.drop i) &&
  (decide (i = 0) || !IsWordChar (text.getD (i - 1) ' ')) &&
  (decide (text.length ≤ i + pat.length) || !IsWordChar (text.getD (i + pat.length) ' '))

/-- `re.search(r'\b(alt1|alt2|...)\b', text)` as a Boolean: some alternative
matches at some position with word boundaries. -/
def foundAny (text : List Char) (alts : List String) : Bool :=
  (List.range (text.length + 1)).any fun i =>
    alts.any fun pat => boundaryMatchAt text pat.data i

/-- `RESUME_SECTIONS` from the source, each regex written out as its list of
literal alternatives (the only regex feature used besides `\b`-bounded
alternation is the escaped dot in `b\.s` etc., a literal `.`). -/
def RESUME_SECTIONS : List (String × List String) :=
  [("summary", ["summary", "objective", "profile", "about"]),
   ("skills", ["skills", "technical skills", "competencies", "expertise"]),
   ("experience",
    ["experience", "work experience", "professional experience", "employment"]),
   ("education",
    ["education", "academic", "degree", "certification", "bachelors", "masters",
     "phd", "b.s", "b.a", "m.s", "m.a"]),
   ("projects", ["projects", "portfolio", "personal projects", "key projects"])]

/-- The `details` dictionary of `score_resume_sections`. -/
structure SectionDetails where
  sections_detected : List (String × Bool)
  detected_count : Nat
  total_sections : Nat
  score_per_section : Nat
deriving DecidableEq

/-- `score_resume_sections` from the source: 4 points per detected section
over the lowercased (not otherwise normalized) resume text. -/
def score_resume_sections (resume_text : String) : ℚ × SectionDetails :=
  let lower := resume_text.data.map Char.toLower
  let found := RESUME_SECTIONS.map fun p => (p.1, foundAny lower p.2)
  let cnt := (found.filter fun p => p.2).length
  (((cnt * 4 : Nat) : ℚ),
   { sections_detected := found
     detected_count := cnt
     total_sections := RESUME_SECTIONS.length
     score_per_section := 4 })

/-- The penalty / bonus messages of `score_formatting_heuristics`, as tagged
values carrying the interpolated data and the point delta. -/
inductive FormatNote where
  | tooFewWords (wc : Nat) (pts : Nat)
  | tooManyWords (wc : Nat) (pts : Nat)
  | excessiveSpecialChars (r : ℚ) (pts : Nat)
  | goodBulletPoints (n : Nat) (pts : Nat)
deriving DecidableEq

/-- The `details` dictionary of `score_formatting_heuristics`. -/
structure FormattingDetails where
  word_count : Nat
  special_char_ratio : ℚ
  bullet_point_count : Nat
  penalties : List FormatNote
  bonuses : List FormatNote
deriving DecidableEq

/-- Characters counted by the special-character check:
`c in string.punctuation and c not in '.-,'`. -/
def isSpecialChar (c : Char) : Bool :=
  pythonPunctuation.contains c && !(c = '.') && !(c = '-') && !(c = ',')

/-- One attempted match of `\s*[-*•]\s` at a `^` position (regex `\s*` is
greedy and, under `re.MULTILINE`, may span newlines; since the bullet chars
are not whitespace, the greedy run is exact and no backtracking can succeed
where this fails).  Returns the length of the whitespace run; the full match
consumes that run plus the bullet character plus one whitespace. -/
def bulletMatchLen (cs : List Char) : Option Nat :=
  match cs.drop (cs.takeWhile pyIsSpace).length with
  | b :: d :: _ =>
    if (b = '-' || b = '*' || b = '•') && pyIsSpace d then
      some (cs.takeWhile pyIsSpace).length
    else none
  | _ => none

/-- `len(re.findall(r'^\s*[-*•]\s', text, re.MULTILINE))`: non-overlapping
left-to-right matches, each starting at the beginning of the text or just
after a newline.  Every step consumes at least one character, so fuel equal
to the text length can never run out; it only makes the recursion
structural (hence kernel-reducible). -/
def countBulletsAux : Nat → List Char → Bool → Nat
  | 0, _, _ => 0
  | _ + 1, [], _ => 0
  | fuel + 1, c :: rest, atStart =>
    if atStart then
      match bulletMatchLen (c :: rest) with
      | some n =>
        1 + countBulletsAux fuel ((c :: rest).drop (n + 2))
              (((c :: rest).getD (n + 1) ' ') = '\n')
      | none => countBulletsAux fuel rest (c = '\n')
    else countBulletsAux fuel rest (c = '\n')

def countBullets (cs : List Char) : Nat := countBulletsAux cs.length cs true

/-- `len(resume_text.split())`: the word count over the raw text. -/
def pyWordCount (s : String) : Nat := (pySplitL s.data).length

/-- `special_chars / len(resume_text) if resume_text else 0`. -/
def specialCharFraction (s : String) : ℚ :=
  if s.data.isEmpty then 0
  else ((s.data.filter isSpecialChar).length : ℚ) / (s.data.length : ℚ)

/-- `score_formatting_heuristics` from the source: start at 10, −3 for fewer
than 100 or more than 2000 words (an `elif`, hence mutually exclusive), −2
for a special-character ratio above 0.15, +2 for at least five bullet lines,
clamped to [0, 10]. -/
def score_formatting_heuristics (resume_text : String) : ℚ × FormattingDetails :=
  let word_count := pyWordCount resume_text
  let ratio : ℚ := specialCharFraction resume_text
  let bullets := countBullets resume_text.data
  let wordPenalties : List FormatNote :=
    if word_count < 100 then [.tooFewWords word_count 3]
    else if 2000 < word_count then [.tooManyWords word_count 3]
    else []
  let charPenalties : List FormatNote :=
    if (15 : ℚ) / 100 < ratio then [.excessiveSpecialChars ratio 2] else []
  let bonuses : List FormatNote :=
    if 5 ≤ bullets then [.goodBulletPoints bullets 2] else []
  let score : ℚ :=
    10 - (if word_count < 100 then 3 else if 2000 < word_count then 3 else 0)
       - (if (15 : ℚ) / 100 < ratio then 2 else 0)
       + (if 5 ≤ bullets then 2 else 0)
  (max 0 (min 10 score),
   { word_count := word_count
     special_char_ratio := round4 ratio
     bullet_point_count := bullets
     penalties := wordPenalties ++ charPenalties
     bonuses := bonuses })

/-- `STRONG_ACTION_VERBS` from the source. -/
def STRONG_ACTION_VERBS : List String :=
  ["built", "developed", "created", "designed", "engineered", "architected",
   "optimized", "improved", "enhanced", "accelerated", "automated", "streamlined",
   "led", "managed", "coordinated", "orchestrated", "directed", "supervised",
   "achieved", "accomplished", "delivered", "executed", "implemented", "launched",
   "spearheaded", "pioneered", "transformed", "revolutionized", "innovated",
   "analyzed", "identified", "discovered", "resolved", "solved", "troubleshot",
   "increased", "decreased", "reduced", "maximized", "minimized", "scaled",
   "integrated", "consolidated", "merged", "combined", "unified", "aligned",
   "awarded", "recognized", "certified", "promoted", "selected", "chosen"]

/-- The `details` dictionary of `score_action_verbs` (the constant
`benchmark` string is omitted). -/
structure ActionVerbDetails where
  action_verb_count : Nat
  verbs_found : List String
deriving DecidableEq

/-- `score_action_verbs` from the source: count tokens of the normalized
resume that are strong action verbs (with multiplicity) and score on the
piecewise ramp. -/
def score_action_verbs (resume_text : String) : ℚ × ActionVerbDetails :=
  let words := pySplit (preprocess_text ⟨resume_text.data.map Char.toLower⟩)
  let found := words.filter fun w => STRONG_ACTION_VERBS.contains w
  let c := found.length
  let score : ℚ :=
    if c < 5 then ((c : ℚ) / 5) * 6 else min 10 (6 + ((c : ℚ) - 5) / 10)
  (score, { action_verb_count := c, verbs_found := found })

/-- The `details` dictionary of `score_semantic_similarity`; the
`interpretation` message is modelled by the number it interpolates,
`round(similarity * 100, 1)`. -/
structure SemanticDetails where
  similarity_score : ℚ
  method : String
  interpretation : ℚ
deriving DecidableEq

/-- `score_semantic_similarity` from the source.  `tfidf` abstracts the
scikit-learn vectorization of the two preprocessed texts: `some s` is a
successful TF-IDF cosine similarity `s`, `none` means `fit_transform`
raised (for example the empty-vocabulary `ValueError` on degenerate input),
in which case the `except` branch computes the word-overlap fallback.
Both branches flow into the single `return`, whose `method` entry is the
constant string `'TF-IDF Cosine Similarity'`. -/
def score_semantic_similarity (tfidf : Option ℚ) (resume_text jd_text : String) :
    ℚ × SemanticDetails :=
  match tfidf with
  | some s =>
    (s * 10,
     { similarity_score := round4 s
       method := "TF-IDF Cosine Similarity"
       interpretation := round1 (s * 100) })
  | none =>
    let resume_words := dedupFirst (pySplit (preprocess_text resume_text))
    let jd_words := dedupFirst (pySplit (preprocess_text jd_text))
    let similarity : ℚ :=
      if jd_words.isEmpty then 0
      else ((jd_words.filter fun w => resume_words.contains w).length : ℚ) /
             (jd_words.length : ℚ)
    (min 10 (similarity * 10),
     { similarity_score := round4 similarity
       method := "TF-IDF Cosine Similarity"
       interpretation := round1 (similarity * 100) })

/-- One component entry of the result dictionary. -/
structure ComponentEntry (D : Type) where
  score : ℚ
  weight : String
  details : D
deriving DecidableEq

/-- The dictionary returned by `calculate_ats_score`. -/
structure ATSResult where
  final_score : ℚ
  keyword_matching : ComponentEntry KeywordDetails
  resume_sections : ComponentEntry SectionDetails
  formatting_heuristics : ComponentEntry FormattingDetails
  action_verbs : ComponentEntry ActionVerbDetails
  semantic_similarity : ComponentEntry SemanticDetails
deriving DecidableEq

/-- `calculate_ats_score` from the source: run the five scorers, sum, clamp
to [0, 100], round the final and component scores to 2 decimals.  `tfidf` is
the semantic-similarity oracle (see `score_semantic_similarity`). -/
def calculate_ats_score (tfidf : Option ℚ) (resume_text jd_text : String) :
    ATSResult :=
  let kw := score_keyword_matching resume_text jd_text
  let sec := score_resume_sections resume_text
  let fmt := score_formatting_heuristics resume_text
  let av := score_action_verbs resume_text
  let sem := score_semantic_similarity tfidf resume_text jd_text
  let final : ℚ := max 0 (min 100 (kw.1 + sec.1 + fmt.1 + av.1 + sem.1))
  { final_score := round2 final
    keyword_matching := ⟨round2 kw.1, "40%", kw.2⟩
    resume_sections := ⟨round2 sec.1, "20%", sec.2⟩
    formatting_heuristics := ⟨round2 fmt.1, "10%", fmt.2⟩
    action_verbs := ⟨round2 av.1, "10%", av.2⟩
    semantic_similarity := ⟨round2 sem.1, "10%", sem.2⟩ }

/-- The suggestion strings of `generate_improvement_suggestions`, as tagged
values carrying the data each message interpolates. -/
inductive Suggestion where
  | addMissingKeywords (kws : List String)
  | addMissingSections (names : List String)
  | formattingFix (p : FormatNote)
  | expandContent (wc : Nat)
  | strongerActionVerbs (count : Nat)
  | improveSemanticMatch
  | overallFocus (score : ℚ)
  | greatScore (score : ℚ)
deriving DecidableEq

/-- `generate_improvement_suggestions` from the source: the seven rules fire
independently, appending in a fixed order; if none fires, the single
"great score" message is returned. -/
def generate_improvement_suggestions (r : ATSResult) (threshold : ℚ) :
    List Suggestion :=
  let s1 : List Suggestion :=
    if r.keyword_matching.score < 20 ∧
        r.keyword_matching.details.missing_keywords ≠ [] then
      [.addMissingKeywords (r.keyword_matching.details.missing_keywords.take 10)]
    else []
  let missing_sections :=
    ((r.resume_sections.details.sections_detected.filter fun p => !p.2).map
      Prod.fst)
  let s2 : List Suggestion :=
    if r.resume_sections.score < 20 ∧ missing_sections ≠ [] then
      [.addMissingSections missing_sections]
    else []
  let s3 : List Suggestion :=
    r.formatting_heuristics.details.penalties.map Suggestion.formattingFix
  let s4 : List Suggestion :=
    if r.formatting_heuristics.details.word_count < 100 then
      [.expandContent r.formatting_heuristics.details.word_count]
    else []
  let s5 : List Suggestion :=
    if r.action_verbs.score < 6 then
      [.strongerActionVerbs r.action_verbs.details.action_verb_count]
    else []
  let s6 : List Suggestion :=
    if r.semantic_similarity.score < 5 then [.improveSemanticMatch] else []
  let s7 : List Suggestion :=
    if r.final_score < threshold then [.overallFocus r.final_score] else []
  let all := s1 ++ s2 ++ s3 ++ s4 ++ s5 ++ s6 ++ s7
  if all.isEmpty then [.greatScore r.final_score] else all

/-- Word-overlap similarity following the specification text (to be compared
with the `except`-branch of the source): `|resume_words ∩ jd_words| /
|jd_words|` (0 if the JD word set is empty), the word sets being the
normalized tokens. -/
def spec_fallback_similarity (resume_text jd_text : String) : ℚ :=
  let rw := (pySplit (preprocess_text resume_text)).toFinset
  let jw := (pySplit (preprocess_text jd_text)).toFinset
  if jw = ∅ then 0 else ((rw ∩ jw).card : ℚ) / (jw.card : ℚ)

/-- Fallback score following the specification text:
`min(10, similarity * 10)`. -/
def spec_fallback_score (resume_text jd_text : String) : ℚ :=
  min 10 (spec_fallback_similarity resume_text jd_text * 10)

/-- A resume of `n` words ("w w w ... w "). -/
def wRepeat (n : Nat) : String := ⟨(List.replicate n ['w', ' ']).flatten⟩

/-- A resume whose five tokens are action verbs, one of them repeated. -/
def exA5 : String := "Built built created designed led"

/-- A resume consisting of the action verb "led" fifteen times. -/
def exA15 : String := ⟨(List.replicate 15 ['l', 'e', 'd', ' ']).flatten⟩

/-- An `ATSResult` satisfying every hypothesis of the original claim C5
(final score ≥ 75, no missing keywords, no missing sections, no formatting
penalties) whose action-verb component nevertheless triggers suggestion
rule 5. -/
def exC5bad : ATSResult :=
  { final_score := 80
    keyword_matching := ⟨40, "40%", ⟨["python"], [], 1, 1, 100⟩⟩
    resume_sections :=
      ⟨20, "20%",
       ⟨[("summary", true), ("skills", true), ("experience", true),
         ("education", true), ("projects", true)], 5, 5, 4⟩⟩
    formatting_heuristics := ⟨10, "10%", ⟨150, 0, 6, [], [.goodBulletPoints 6 2]⟩⟩
    action_verbs := ⟨0, "10%", ⟨0, []⟩⟩
    semantic_similarity := ⟨10, "10%", ⟨1, "TF-IDF Cosine Similarity", 100⟩⟩ }

/-- An `ATSResult` on which no suggestion rule fires. -/
def exC5good : ATSResult :=
  { final_score := 86
    keyword_matching := ⟨40, "40%", ⟨["python"], [], 1, 1, 100⟩⟩
    resume_sections :=
      ⟨20, "20%",
       ⟨[("summary", true), ("skills", true), ("experience", true),
         ("education", true), ("projects", true)], 5, 5, 4⟩⟩
    formatting_heuristics := ⟨10, "10%", ⟨150, 0, 6, [], [.goodBulletPoints 6 2]⟩⟩
    action_verbs := ⟨7, "10%", ⟨15, List.replicate 15 "led"⟩⟩
    semantic_similarity := ⟨9, "10%", ⟨9 / 10, "TF-IDF Cosine Similarity", 90⟩⟩ }

end ATS

namespace ATS

example : preprocess_text "Hello, World!!" = "hello world" := by decide
example : preprocess_text "visit http://x.co or www.a.b now" = "visit or now" := by decide
example : preprocess_text "mail me@you.com ok" = "mail ok" := by decide
example : preprocess_text "" = "" := by decide
example : preprocess_text "ht:tpz x" = "httpz x" := by decide
example : preprocess_text "httpz x" = "x" := by decide
example : pySplit "  a  bb " = ["a", "bb"] := by decide
example : extract_keywords "bb aa cc aa" 2 3 = ["aa", "bb", "cc"] := by decide
example : extract_keywords "bb aa c aa" 2 10 = ["aa", "bb"] := by decide
example : extract_keywords "" 3 40 = [] := by decide
example : (score_keyword_matching "the" "and the for").1 = 40 / 3 := by
  show ((1 : ℕ) : ℚ) / ((3 : ℕ) : ℚ) * 40 = 40 / 3
  norm_num
example : (score_keyword_matching "the" "and the for").2.matched_keywords = ["the"] := by decide
example : (score_keyword_matching "x" "").2.total_jd_keywords = 1 := by decide
example : (score_resume_sections "Skills and Education").2.detected_count = 2 := by decide
example : (score_resume_sections "the").2.detected_count = 0 := by decide
example : (score_resume_sections "reskills").2.detected_count = 0 := by decide
example : countBullets "- a\n- b\n * c\nx - d\n•e".data = 3 := by decide
example : (score_formatting_heuristics "the").2.word_count = 1 := by decide
example : score_formatting_heuristics "the" =
    (7, ⟨1, 0, 0, [FormatNote.tooFewWords 1 3], []⟩) := by
  have h1 : pyWordCount "the" = 1 := by decide
  have h2 : ("the".data.filter isSpecialChar).length = 0 := by decide
  have h3 : countBullets "the".data = 0 := by decide
  have h4 : "the".data.isEmpty = false := by decide
  have h5 : "the".data.length = 3 := by decide
  have hfrac : specialCharFraction "the" = 0 := by
    simp only [specialCharFraction, h2, h4]
    norm_num
  simp only [score_formatting_heuristics, h1, h3, hfrac]
  norm_num [round4]
example : (score_action_verbs "Built and built, led").2.action_verb_count = 3 := by decide
example : (score_semantic_similarity none "the" "and the for").2.method =
    "TF-IDF Cosine Similarity" := by decide

theorem dedupFirst_mem {l : List String} {x : String} :
    x ∈ dedupFirst l ↔ x ∈ l := by
  induction l with
  | nil => simp [dedupFirst]
  | cons w ws ih =>
    simp only [dedupFirst, List.mem_cons, List.mem_filter, ih, decide_eq_true_eq]
    constructor
    · rintro (rfl | ⟨h, _⟩)
      · exact Or.inl rfl
      · exact Or.inr h
    · rintro (rfl | h)
      · exact Or.inl rfl
      · by_cases hx : x = w
        · exact Or.inl hx
        · exact Or.inr ⟨h, hx⟩

theorem dedupFirst_nodup (l : List String) : (dedupFirst l).Nodup := by
  induction l with
  | nil => simp [dedupFirst]
  | cons w ws ih =>
    simp only [dedupFirst, List.nodup_cons]
    refine ⟨fun hmem => ?_, ih.filter _⟩
    have h2 := (List.mem_filter.mp hmem).2
    simp at h2

theorem dedupFirst_toFinset (l : List String) :
    (dedupFirst l).toFinset = l.toFinset := by
  ext x
  simp [List.mem_toFinset, dedupFirst_mem]

theorem dedupFirst_length (l : List String) :
    (dedupFirst l).length = l.toFinset.card := by
  rw [← dedupFirst_toFinset, List.toFinset_card_of_nodup (dedupFirst_nodup l)]

theorem dedupFirst_eq_nil_iff {l : List String} : dedupFirst l = [] ↔ l = [] := by
  cases l <;> simp [dedupFirst]

/-- C2: for every resume text, if the job description yields no keywords (in
particular when it is the empty string), `score_keyword_matching` returns
score 0 with `matched_count` 0, the denominator having been floored to 1
(reported as `total_jd_keywords = 1`); being a total function, the embedded
scorer cannot raise. -/
theorem claim_C2 (resume_text jd_text : String)
    (h : extract_keywords jd_text 3 40 = []) :
    (score_keyword_matching resume_text jd_text).1 = 0 ∧
    (score_keyword_matching resume_text jd_text).2.matched_count = 0 ∧
    (score_keyword_matching resume_text jd_text).2.total_jd_keywords = 1 := by
  simp only [score_keyword_matching, h, List.filter_nil, List.insertionSort,
    List.length_nil, List.isEmpty_nil, if_true]
  norm_num

/-- C2 witness: the empty job description yields no keywords, and the scorer
returns score 0, `matched_count` 0 and denominator 1 on it. -/
theorem claim_C2_witness :
    extract_keywords "" 3 40 = [] ∧
    (score_keyword_matching "a resume" "").1 = 0 ∧
    (score_keyword_matching "a resume" "").2.matched_count = 0 ∧
    (score_keyword_matching "a resume" "").2.total_jd_keywords = 1 := by
  have h : extract_keywords "" 3 40 = [] := by decide
  obtain ⟨h1, h2, h3⟩ := claim_C2 "a resume" "" h
  exact ⟨h, h1, h2, h3⟩

/-- C3: whenever the vectorization path fails (`tfidf = none`, the abstracted
scikit-learn call having raised), the error is handled locally — the embedded
scorer is total and still returns — and the returned score is exactly the
word-overlap fallback dictated by the specification:
`min(10, 10 * |resume_words ∩ jd_words| / |jd_words|)`, 0 when the JD word
set is empty. -/
theorem claim_C3 (resume_text jd_text : String) :
    (score_semantic_similarity none resume_text jd_text).1 =
      spec_fallback_score resume_text jd_text := by
  simp only [score_semantic_similarity, spec_fallback_score,
    spec_fallback_similarity]
  congr 1
  congr 1
  rcases eq_or_ne (pySplit (preprocess_text jd_text)) [] with hj | hj
  · rw [hj]
    simp [dedupFirst]
  · have hne : dedupFirst (pySplit (preprocess_text jd_text)) ≠ [] :=
      fun hc => hj (dedupFirst_eq_nil_iff.mp hc)
    have hfe : (pySplit (preprocess_text jd_text)).toFinset ≠ ∅ := by
      simpa [List.toFinset_eq_empty_iff] using hj
    rw [if_neg (by simpa [List.isEmpty_iff] using hne), if_neg hfe]
    have hnodup := dedupFirst_nodup (pySplit (preprocess_text jd_text))
    have hfilter :
        ((dedupFirst (pySplit (preprocess_text jd_text))).filter fun w =>
            (dedupFirst (pySplit (preprocess_text resume_text))).contains w).length =
          ((pySplit (preprocess_text resume_text)).toFinset ∩
            (pySplit (preprocess_text jd_text)).toFinset).card := by
      rw [← List.toFinset_card_of_nodup (hnodup.filter _)]
      congr 1
      ext x
      simp only [List.mem_toFinset, List.mem_filter, dedupFirst_mem,
        Finset.mem_inter, List.contains, List.elem_iff]
      exact ⟨fun ⟨hx, hr⟩ => ⟨hr, hx⟩, fun ⟨hr, hx⟩ => ⟨hx, hr⟩⟩
    rw [hfilter, dedupFirst_length]

/-- C4: code bug — on the failing input (both texts empty, where the
scikit-learn vectorizer raises its empty-vocabulary error and the
word-overlap fallback computes the similarity), the `method` detail still
reads `'TF-IDF Cosine Similarity'`: the return dictionary lies outside the
`try`/`except`, so the method name never reflects the fallback.  The
similarity detail is nevertheless the (rounded) fallback value 0. -/
theorem claim_C4 :
    (score_semantic_similarity none "" "").2.method = "TF-IDF Cosine Similarity" ∧
    (score_semantic_similarity none "" "").2.similarity_score = 0 ∧
    (score_semantic_similarity none "" "").1 = 0 := by
  have hempty : dedupFirst (pySplit (preprocess_text "")) = [] := by decide
  refine ⟨by decide, ?_, ?_⟩ <;>
    simp [score_semantic_similarity, hempty, round4]

/-- C6: `score_action_verbs` counts action-verb tokens of the normalized,
whitespace-tokenized resume with multiplicity (`countP`, not a distinct
count), scores `(count/5)*6` below five matches and
`min(10, 6 + (count-5)/10)` from five on; in particular a count of exactly 5
scores exactly 6 and a count of exactly 15 scores exactly 7. -/
theorem claim_C6 (resume_text : String) :
    (score_action_verbs resume_text).2.action_verb_count =
      (pySplit (preprocess_text ⟨resume_text.data.map Char.toLower⟩)).countP
        (fun w => STRONG_ACTION_VERBS.contains w) ∧
    (score_action_verbs resume_text).1 =
      (if (score_action_verbs resume_text).2.action_verb_count < 5 then
        (((score_action_verbs resume_text).2.action_verb_count : ℚ) / 5) * 6
      else
        min 10
          (6 + (((score_action_verbs resume_text).2.action_verb_count : ℚ) - 5) / 10)) ∧
    ((score_action_verbs resume_text).2.action_verb_count = 5 →
      (score_action_verbs resume_text).1 = 6) ∧
    ((score_action_verbs resume_text).2.action_verb_count = 15 →
      (score_action_verbs resume_text).1 = 7) := by
  refine ⟨?_, ?_, ?_, ?_⟩
  · simp only [score_action_verbs, List.countP_eq_length_filter]
  · rfl
  · intro h
    simp only [score_action_verbs] at h ⊢
    rw [h]
    norm_num
  · intro h
    simp only [score_action_verbs] at h ⊢
    rw [h]
    norm_num

/-- C6 witness: "Built built created designed led" has verb count 5 (the
duplicate counts twice) and scores exactly 6; fifteen "led" tokens score
exactly 7. -/
theorem claim_C6_witness :
    (score_action_verbs exA5).2.action_verb_count = 5 ∧
    (score_action_verbs exA5).1 = 6 ∧
    (score_action_verbs exA15).1 = 7 := by
  have h5 : (score_action_verbs exA5).2.action_verb_count = 5 := by decide
  have h15 : (score_action_verbs exA15).2.action_verb_count = 15 := by decide
  exact ⟨h5, (claim_C6 exA5).2.2.1 h5, (claim_C6 exA15).2.2.2 h15⟩

theorem firstIdx_injOn {ws : List String} {a b : String} (ha : a ∈ ws)
    (hb : b ∈ ws) (h : firstIdx ws a = firstIdx ws b) : a = b := by
  induction ws with
  | nil => cases ha
  | cons x xs ih =>
    by_cases hax : x = a <;> by_cases hbx : x = b
    · exact hax ▸ hbx
    · subst hax
      by_cases hab : x = b
      · exact hab
      · simp [firstIdx, hab] at h
    · subst hbx
      simp [firstIdx, hax] at h
    · simp only [firstIdx, if_neg hax, if_neg hbx, Nat.add_right_cancel_iff] at h
      have ha2 : a ∈ xs := by
        rcases List.mem_cons.mp ha with h2 | h2
        · exact absurd h2.symm hax
        · exact h2
      have hb2 : b ∈ xs := by
        rcases List.mem_cons.mp hb with h2 | h2
        · exact absurd h2.symm hbx
        · exact h2
      exact ih ha2 hb2 h

/-- C8: `extract_keywords` returns distinct tokens, each at least
`min_length` long, at most `max_keywords` of them, pairwise ordered by
strictly descending frequency in the (normalized, length-filtered) token
list with frequency ties broken by strictly increasing first-occurrence
position. -/
theorem claim_C8 (text : String) (min_length max_keywords : Nat) :
    (extract_keywords text min_length max_keywords).Nodup ∧
    (∀ k ∈ extract_keywords text min_length max_keywords,
      min_length ≤ k.length) ∧
    (extract_keywords text min_length max_keywords).length ≤ max_keywords ∧
    (extract_keywords text min_length max_keywords).Pairwise
      (kwStrictRel (keywordTokens text min_length)) := by
  set ws := keywordTokens text min_length with hws
  have hperm : List.Perm ((dedupFirst ws).insertionSort (kwRel ws)) (dedupFirst ws) :=
    List.perm_insertionSort _ _
  have hnodup : ((dedupFirst ws).insertionSort (kwRel ws)).Nodup :=
    hperm.nodup_iff.mpr (dedupFirst_nodup ws)
  have htake : (extract_keywords text min_length max_keywords).Sublist
      ((dedupFirst ws).insertionSort (kwRel ws)) := by
    simpa [extract_keywords, hws] using
      List.take_sublist max_keywords ((dedupFirst ws).insertionSort (kwRel ws))
  have hmem : ∀ k ∈ extract_keywords text min_length max_keywords, k ∈ ws := by
    intro k hk
    have h1 : k ∈ (dedupFirst ws).insertionSort (kwRel ws) := htake.mem hk
    exact dedupFirst_mem.mp (hperm.mem_iff.mp h1)
  refine ⟨hnodup.sublist htake, ?_, ?_, ?_⟩
  · intro k hk
    have h2 := hmem k hk
    rw [hws] at h2
    exact of_decide_eq_true (List.mem_filter.mp h2).2
  · rw [extract_keywords, ← hws]
    exact List.length_take_le max_keywords ((dedupFirst ws).insertionSort (kwRel ws))
  · have hsorted : ((dedupFirst ws).insertionSort (kwRel ws)).Pairwise (kwRel ws) :=
      List.sorted_insertionSort (kwRel ws) (dedupFirst ws)
    have hne : ((dedupFirst ws).insertionSort (kwRel ws)).Pairwise (· ≠ ·) :=
      hnodup
    have hstrict : ((dedupFirst ws).insertionSort (kwRel ws)).Pairwise
        (kwStrictRel ws) := by
      have hand := hsorted.and hne
      refine hand.imp_of_mem ?_
      intro a b hma hmb hab
      have haw : a ∈ ws := dedupFirst_mem.mp (hperm.mem_iff.mp hma)
      have hbw : b ∈ ws := dedupFirst_mem.mp (hperm.mem_iff.mp hmb)
      rcases hab.1 with h1 | ⟨h1, h2⟩
      · exact Or.inl h1
      · refine Or.inr ⟨h1, lt_of_le_of_ne h2 fun hc => hab.2 ?_⟩
        exact firstIdx_injOn haw hbw hc
    exact hstrict.sublist htake

/-- C8 witness: on "bb aa cc aa" with minimum length 2 and maximum count 3,
the extractor returns ["aa", "bb", "cc"] (frequency 2 first, then the two
frequency-1 tokens in first-seen order) and the proved shape properties hold
for it. -/
theorem claim_C8_witness :
    extract_keywords "bb aa cc aa" 2 3 = ["aa", "bb", "cc"] ∧
    (extract_keywords "bb aa cc aa" 2 3).Nodup ∧
    (extract_keywords "bb aa cc aa" 2 3).length ≤ 3 := by
  exact ⟨by decide, (claim_C8 "bb aa cc aa" 2 3).1,
    (claim_C8 "bb aa cc aa" 2 3).2.2.1⟩

/-- C10: in the keyword-matching details, the matched and missing lists are
disjoint, together they cover exactly the extracted JD keyword set, both are
sorted lexicographically, `matched_count` equals the length of the matched
list, and `total_jd_keywords` is the number of distinct JD keywords except
that 0 is reported as 1. -/
theorem claim_C10 (resume_text jd_text : String) :
    (∀ w, w ∈ (score_keyword_matching resume_text jd_text).2.matched_keywords →
      w ∉ (score_keyword_matching resume_text jd_text).2.missing_keywords) ∧
    (∀ w,
      (w ∈ (score_keyword_matching resume_text jd_text).2.matched_keywords ∨
        w ∈ (score_keyword_matching resume_text jd_text).2.missing_keywords) ↔
      w ∈ extract_keywords jd_text 3 40) ∧
    List.Sorted lexRel
      (score_keyword_matching resume_text jd_text).2.matched_keywords ∧
    List.Sorted lexRel
      (score_keyword_matching resume_text jd_text).2.missing_keywords ∧
    (score_keyword_matching resume_text jd_text).2.matched_count =
      (score_keyword_matching resume_text jd_text).2.matched_keywords.length ∧
    (score_keyword_matching resume_text jd_text).2.total_jd_keywords =
      (if (extract_keywords jd_text 3 40).length = 0 then 1
       else (extract_keywords jd_text 3 40).length) := by
  simp only [score_keyword_matching]
  refine ⟨?_, ?_, List.sorted_insertionSort _ _, List.sorted_insertionSort _ _,
    trivial, ?_⟩
  · intro w hw hw2
    have h1 := (List.mem_filter.mp ((List.mem_insertionSort _).mp hw)).2
    have h2 := (List.mem_filter.mp ((List.mem_insertionSort _).mp hw2)).2
    rw [h1] at h2
    simp at h2
  · intro w
    simp only [List.mem_insertionSort, List.mem_filter, Bool.not_eq_true']
    constructor
    · rintro (⟨h, _⟩ | ⟨h, _⟩) <;> exact h
    · intro h
      by_cases hc : (pySplit (preprocess_text resume_text)).contains w
      · exact Or.inl ⟨h, hc⟩
      · exact Or.inr ⟨h, by simpa using hc⟩
  · rcases eq_or_ne (extract_keywords jd_text 3 40) [] with h | h
    · simp [h]
    · have hlen : (extract_keywords jd_text 3 40).length ≠ 0 := by
        simpa [List.length_eq_zero] using h
      simp [h, hlen, List.isEmpty_iff]

/-- C10 witness: on resume "the" and JD "and the for", the matched list is
["the"], the missing list is ["and", "for"] (both sorted), and the proved
invariants instantiate. -/
theorem claim_C10_witness :
    (score_keyword_matching "the" "and the for").2.matched_keywords = ["the"] ∧
    (score_keyword_matching "the" "and the for").2.missing_keywords =
      ["and", "for"] ∧
    (score_keyword_matching "the" "and the for").2.matched_count = 1 ∧
    List.Sorted lexRel
      (score_keyword_matching "the" "and the for").2.missing_keywords ∧
    (score_keyword_matching "the" "and the for").2.total_jd_keywords = 3 := by
  refine ⟨by decide, by decide, by decide, (claim_C10 "the" "and the for").2.2.2.1,
    by decide⟩

/-- C7: `score_formatting_heuristics` starts at 10 and applies exactly the
four rules of the source over the raw resume text — −3 below 100 words, −3
above 2000 words (mutually exclusive), −2 when the ratio of punctuation
characters other than `.` `-` `,` to the character count (0 on empty text,
by definition of `specialCharFraction`) exceeds 0.15, +2 for at least five
bullet lines — clamps to [0, 10], and records each applied rule with its
point delta in application order; a 50-word resume with no other rule firing
scores 7, as does a 2500-word one. -/
theorem claim_C7 (resume_text : String) :
    (score_formatting_heuristics resume_text).1 =
      max 0 (min 10
        (10 - (if pyWordCount resume_text < 100 then 3
               else if 2000 < pyWordCount resume_text then 3 else 0)
           - (if (15 : ℚ) / 100 < specialCharFraction resume_text then 2 else 0)
           + (if 5 ≤ countBullets resume_text.data then 2 else 0))) ∧
    (score_formatting_heuristics resume_text).2.penalties =
      ((if pyWordCount resume_text < 100 then
          [FormatNote.tooFewWords (pyWordCount resume_text) 3]
        else if 2000 < pyWordCount resume_text then
          [FormatNote.tooManyWords (pyWordCount resume_text) 3]
        else []) ++
       (if (15 : ℚ) / 100 < specialCharFraction resume_text then
          [FormatNote.excessiveSpecialChars (specialCharFraction resume_text) 2]
        else [])) ∧
    (score_formatting_heuristics resume_text).2.bonuses =
      (if 5 ≤ countBullets resume_text.data then
        [FormatNote.goodBulletPoints (countBullets resume_text.data) 2]
       else []) ∧
    (∀ w1 p1 w2 p2,
      FormatNote.tooFewWords w1 p1 ∈
        (score_formatting_heuristics resume_text).2.penalties →
      FormatNote.tooManyWords w2 p2 ∉
        (score_formatting_heuristics resume_text).2.penalties) ∧
    (pyWordCount resume_text = 50 →
      ¬((15 : ℚ) / 100 < specialCharFraction resume_text) →
      countBullets resume_text.data < 5 →
      (score_formatting_heuristics resume_text).1 = 7) ∧
    (pyWordCount resume_text = 2500 →
      ¬((15 : ℚ) / 100 < specialCharFraction resume_text) →
      countBullets resume_text.data < 5 →
      (score_formatting_heuristics resume_text).1 = 7) := by
  have hpen : (score_formatting_heuristics resume_text).2.penalties =
      ((if pyWordCount resume_text < 100 then
          [FormatNote.tooFewWords (pyWordCount resume_text) 3]
        else if 2000 < pyWordCount resume_text then
          [FormatNote.tooManyWords (pyWordCount resume_text) 3]
        else []) ++
       (if (15 : ℚ) / 100 < specialCharFraction resume_text then
          [FormatNote.excessiveSpecialChars (specialCharFraction resume_text) 2]
        else [])) := rfl
  refine ⟨rfl, hpen, rfl, ?_, ?_, ?_⟩
  · intro w1 p1 w2 p2 h1 h2
    by_cases h100 : pyWordCount resume_text < 100
    · rw [hpen, if_pos h100] at h2
      simp only [List.mem_append, List.mem_singleton] at h2
      rcases h2 with h2 | h2
      · exact FormatNote.noConfusion h2
      · split at h2 <;> simp at h2
    · rw [hpen, if_neg h100] at h1
      simp only [List.mem_append] at h1
      rcases h1 with h1 | h1 <;> split at h1 <;> simp at h1
  · intro h50 hrat hbul
    show max 0 (min 10 _) = 7
    rw [h50, if_pos (by norm_num), if_neg hrat, if_neg (by omega)]
    norm_num
  · intro h2500 hrat hbul
    show max 0 (min 10 _) = 7
    rw [h2500, if_neg (by norm_num), if_pos (by norm_num), if_neg hrat,
      if_neg (by omega)]
    norm_num

theorem mem_wRepeat {n : Nat} {c : Char} (h : c ∈ (wRepeat n).data) :
    c = 'w' ∨ c = ' ' := by
  have h2 : c ∈ (List.replicate n ['w', ' ']).flatten := h
  rcases List.mem_flatten.mp h2 with ⟨l, hl, hc⟩
  rw [List.eq_of_mem_replicate hl] at hc
  simpa using hc

theorem bulletMatchLen_none {cs : List Char}
    (h : ∀ c ∈ cs, c ≠ '-' ∧ c ≠ '*' ∧ c ≠ '•') : bulletMatchLen cs = none := by
  unfold bulletMatchLen
  cases hdrop : cs.drop ((cs.takeWhile pyIsSpace).length) with
  | nil => rfl
  | cons b rest2 =>
    cases rest2 with
    | nil => rfl
    | cons d tail =>
      have hb : b ∈ cs :=
        List.mem_of_mem_drop (hdrop ▸ List.mem_cons_self b (d :: tail))
      obtain ⟨h1, h2, h3⟩ := h b hb
      simp [h1, h2, h3]

theorem countBulletsAux_zero (fuel : Nat) :
    ∀ (cs : List Char), (∀ c ∈ cs, c ≠ '-' ∧ c ≠ '*' ∧ c ≠ '•') →
      ∀ b, countBulletsAux fuel cs b = 0 := by
  induction fuel with
  | zero => intro cs h b; rfl
  | succ fuel ih =>
    intro cs h b
    cases cs with
    | nil => rfl
    | cons c rest =>
      have hnone := bulletMatchLen_none h
      have hrest : ∀ x ∈ rest, x ≠ '-' ∧ x ≠ '*' ∧ x ≠ '•' :=
        fun x hx => h x (List.mem_cons_of_mem _ hx)
      simp only [countBulletsAux, hnone]
      split <;> exact ih rest hrest _

theorem countBullets_wRepeat (n : Nat) : countBullets (wRepeat n).data = 0 := by
  refine countBulletsAux_zero _ _ (fun c hc => ?_) true
  rcases mem_wRepeat hc with h | h <;> subst h <;> refine ⟨?_, ?_, ?_⟩ <;> decide

theorem pySplitAux_wRepeat (n : Nat) :
    pySplitAux [] ((List.replicate n ['w', ' ']).flatten) =
      List.replicate n ['w'] := by
  induction n with
  | zero => rfl
  | succ n ih =>
    rw [List.replicate_succ, List.flatten_cons]
    show pySplitAux [] ('w' :: ' ' :: (List.replicate n ['w', ' ']).flatten) = _
    rw [pySplitAux, if_neg (by decide), pySplitAux, if_pos (by decide),
      if_neg (by decide), ih, List.replicate_succ]
    rfl

theorem pyWordCount_wRepeat (n : Nat) : pyWordCount (wRepeat n) = n := by
  show (pySplitL ((List.replicate n ['w', ' ']).flatten)).length = n
  unfold pySplitL
  rw [pySplitAux_wRepeat, List.length_map, List.length_replicate]

theorem filter_special_wRepeat (n : Nat) :
    (wRepeat n).data.filter isSpecialChar = [] := by
  rw [List.filter_eq_nil_iff]
  intro c hc
  rcases mem_wRepeat hc with h | h <;> subst h <;> decide

theorem wRepeat_isEmpty {n : Nat} (h : n ≠ 0) :
    (wRepeat n).data.isEmpty = false := by
  obtain ⟨m, rfl⟩ := Nat.exists_eq_succ_of_ne_zero h
  show ((List.replicate (m + 1) ['w', ' ']).flatten).isEmpty = false
  rw [List.replicate_succ, List.flatten_cons]
  rfl

theorem specialCharFraction_wRepeat {n : Nat} (h : n ≠ 0) :
    specialCharFraction (wRepeat n) = 0 := by
  unfold specialCharFraction
  rw [wRepeat_isEmpty h, filter_special_wRepeat]
  norm_num

/-- C7 witness: the concrete 50-word and 2500-word resumes (whose only firing
rule is the word-count penalty) both score exactly 7. -/
theorem claim_C7_witness :
    (score_formatting_heuristics (wRepeat 50)).1 = 7 ∧
    (score_formatting_heuristics (wRepeat 2500)).1 = 7 := by
  have hrat50 : ¬((15 : ℚ) / 100 < specialCharFraction (wRepeat 50)) := by
    rw [specialCharFraction_wRepeat (by norm_num)]
    norm_num
  have hrat2500 : ¬((15 : ℚ) / 100 < specialCharFraction (wRepeat 2500)) := by
    rw [specialCharFraction_wRepeat (by norm_num)]
    norm_num
  have hb50 : countBullets (wRepeat 50).data < 5 := by
    rw [countBullets_wRepeat]; norm_num
  have hb2500 : countBullets (wRepeat 2500).data < 5 := by
    rw [countBullets_wRepeat]; norm_num
  exact ⟨(claim_C7 (wRepeat 50)).2.2.2.2.1 (pyWordCount_wRepeat 50) hrat50 hb50,
    (claim_C7 (wRepeat 2500)).2.2.2.2.2 (pyWordCount_wRepeat 2500) hrat2500 hb2500⟩

/-- C5 counterexample: `exC5bad` has final score 80 ≥ 75, no missing
keywords, all sections detected, and no formatting penalties, yet
`generate_improvement_suggestions` at the default threshold 75 does not
return the single great-score message — rule 5 fires because the action-verb
component score 0 is below 6, so the output is the action-verb suggestion. -/
theorem claim_C5_counterexample :
    (75 : ℚ) ≤ exC5bad.final_score ∧
    exC5bad.keyword_matching.details.missing_keywords = [] ∧
    (exC5bad.resume_sections.details.sections_detected.all fun p => p.2) = true ∧
    exC5bad.formatting_heuristics.details.penalties = [] ∧
    generate_improvement_suggestions exC5bad 75 =
      [Suggestion.strongerActionVerbs 0] ∧
    generate_improvement_suggestions exC5bad 75 ≠
      [Suggestion.greatScore exC5bad.final_score] := by
  refine ⟨by decide, by decide, by decide, by decide, by decide, by decide⟩

/-- C5 (amended): an `ATSResult` whose final score reaches the threshold,
with no missing keywords, no missing sections, no formatting penalties,
*and additionally* word count at least 100, action-verb score at least 6 and
semantic score at least 5 — i.e. on which no rule fires — yields exactly the
single great-score message; the original claim omitted the last three
conditions, under which rules 4/5/6 can still fire (see the
counterexample). -/
theorem claim_C5 (r : ATSResult) (threshold : ℚ)
    (hfin : threshold ≤ r.final_score)
    (hkw : r.keyword_matching.details.missing_keywords = [])
    (hsec : ∀ p ∈ r.resume_sections.details.sections_detected, p.2 = true)
    (hpen : r.formatting_heuristics.details.penalties = [])
    (hwc : 100 ≤ r.formatting_heuristics.details.word_count)
    (hav : 6 ≤ r.action_verbs.score)
    (hsem : 5 ≤ r.semantic_similarity.score) :
    generate_improvement_suggestions r threshold =
      [Suggestion.greatScore r.final_score] := by
  have hms : (r.resume_sections.details.sections_detected.filter
      fun p => !p.2) = [] := by
    rw [List.filter_eq_nil_iff]
    intro p hp
    rw [hsec p hp]
    decide
  unfold generate_improvement_suggestions
  rw [hkw, hpen, hms]
  simp [Nat.not_lt.mpr hwc, not_lt.mpr hav, not_lt.mpr hsem, not_lt.mpr hfin]

/-- C5 witness: on `exC5good` (no rule fires) the generator returns exactly
the single great-score message. -/
theorem claim_C5_witness :
    generate_improvement_suggestions exC5good 75 =
      [Suggestion.greatScore exC5good.final_score] :=
  claim_C5 exC5good 75 (by decide) (by decide) (by decide) (by decide)
    (by decide) (by decide) (by decide)

theorem round_mono_q {x y : ℚ} (hxy : x ≤ y) : round x ≤ round y := by
  rw [round_eq, round_eq]
  exact Int.floor_mono (by linarith)

theorem round2_bounds {q : ℚ} {a b : ℤ} (h1 : (a : ℚ) ≤ q) (h2 : q ≤ (b : ℚ)) :
    (a : ℚ) ≤ round2 q ∧ round2 q ≤ (b : ℚ) := by
  have ha : (100 * a : ℤ) ≤ round (q * 100) := by
    have h3 := round_mono_q (show (a : ℚ) * 100 ≤ q * 100 by linarith)
    rwa [show ((a : ℚ) * 100) = ((100 * a : ℤ) : ℚ) by push_cast; ring,
      round_intCast] at h3
  have hb : round (q * 100) ≤ (100 * b : ℤ) := by
    have h3 := round_mono_q (show q * 100 ≤ (b : ℚ) * 100 by linarith)
    rwa [show ((b : ℚ) * 100) = ((100 * b : ℤ) : ℚ) by push_cast; ring,
      round_intCast] at h3
  constructor
  · rw [round2, le_div_iff₀ (by norm_num : (0 : ℚ) < 100)]
    calc (a : ℚ) * 100 = ((100 * a : ℤ) : ℚ) := by push_cast; ring
      _ ≤ (round (q * 100) : ℚ) := by exact_mod_cast ha
  · rw [round2, div_le_iff₀ (by norm_num : (0 : ℚ) < 100)]
    calc (round (q * 100) : ℚ) ≤ ((100 * b : ℤ) : ℚ) := by exact_mod_cast hb
      _ = (b : ℚ) * 100 := by push_cast; ring

theorem keyword_score_bounds (resume_text jd_text : String) :
    0 ≤ (score_keyword_matching resume_text jd_text).1 ∧
    (score_keyword_matching resume_text jd_text).1 ≤ 40 := by
  rcases eq_or_ne (extract_keywords jd_text 3 40) [] with h | h
  · simp only [score_keyword_matching, h, List.filter_nil, List.insertionSort,
      List.length_nil, List.isEmpty_nil, if_true]
    norm_num
  · have h' : (extract_keywords jd_text 3 40).isEmpty = false := by
      simp [List.isEmpty_iff, h]
    simp only [score_keyword_matching, h', Bool.false_eq_true, if_false,
      List.length_insertionSort]
    have hm_le : ((extract_keywords jd_text 3 40).filter fun k =>
        (pySplit (preprocess_text resume_text)).contains k).length ≤
        (extract_keywords jd_text 3 40).length := List.length_filter_le _ _
    have hpos : 0 < (extract_keywords jd_text 3 40).length :=
      List.length_pos.mpr h
    have h2 : (0 : ℚ) < ((extract_keywords jd_text 3 40).length : ℚ) := by
      exact_mod_cast hpos
    have h1 : (((extract_keywords jd_text 3 40).filter fun k =>
        (pySplit (preprocess_text resume_text)).contains k).length : ℚ) /
        ((extract_keywords jd_text 3 40).length : ℚ) ≤ 1 := by
      rw [div_le_one h2]
      exact_mod_cast hm_le
    have h0 : (0 : ℚ) ≤ (((extract_keywords jd_text 3 40).filter fun k =>
        (pySplit (preprocess_text resume_text)).contains k).length : ℚ) /
        ((extract_keywords jd_text 3 40).length : ℚ) :=
      div_nonneg (Nat.cast_nonneg _) (Nat.cast_nonneg _)
    constructor
    · linarith
    · linarith

theorem sections_score_bounds (resume_text : String) :
    0 ≤ (score_resume_sections resume_text).1 ∧
    (score_resume_sections resume_text).1 ≤ 20 := by
  simp only [score_resume_sections]
  have h5 : ((RESUME_SECTIONS.map fun p =>
      (p.1, foundAny (resume_text.data.map Char.toLower) p.2)).filter
        fun p => p.2).length ≤ 5 := by
    calc ((RESUME_SECTIONS.map fun p =>
        (p.1, foundAny (resume_text.data.map Char.toLower) p.2)).filter
          fun p => p.2).length ≤
        (RESUME_SECTIONS.map fun p =>
          (p.1, foundAny (resume_text.data.map Char.toLower) p.2)).length :=
        List.length_filter_le _ _
      _ = 5 := by rw [List.length_map]; rfl
  constructor
  · positivity
  · exact_mod_cast Nat.mul_le_mul_right 4 h5

theorem formatting_score_bounds (resume_text : String) :
    0 ≤ (score_formatting_heuristics resume_text).1 ∧
    (score_formatting_heuristics resume_text).1 ≤ 10 := by
  simp only [score_formatting_heuristics]
  exact ⟨le_max_left 0 _, max_le (by norm_num) (min_le_left _ _)⟩

theorem action_verbs_score_bounds (resume_text : String) :
    0 ≤ (score_action_verbs resume_text).1 ∧
    (score_action_verbs resume_text).1 ≤ 10 := by
  simp only [score_action_verbs]
  by_cases h : ((pySplit (preprocess_text
      ⟨resume_text.data.map Char.toLower⟩)).filter
        fun w => STRONG_ACTION_VERBS.contains w).length < 5
  · rw [if_pos h]
    have hcq : ((((pySplit (preprocess_text
        ⟨resume_text.data.map Char.toLower⟩)).filter
          fun w => STRONG_ACTION_VERBS.contains w).length : ℕ) : ℚ) ≤ 4 := by
      exact_mod_cast Nat.lt_succ_iff.mp h
    have h0 : (0 : ℚ) ≤ ((((pySplit (preprocess_text
        ⟨resume_text.data.map Char.toLower⟩)).filter
          fun w => STRONG_ACTION_VERBS.contains w).length : ℕ) : ℚ) :=
      Nat.cast_nonneg _
    constructor
    · linarith
    · linarith
  · rw [if_neg h]
    have hcq : (5 : ℚ) ≤ ((((pySplit (preprocess_text
        ⟨resume_text.data.map Char.toLower⟩)).filter
          fun w => STRONG_ACTION_VERBS.contains w).length : ℕ) : ℚ) := by
      exact_mod_cast Nat.not_lt.mp h
    constructor
    · exact le_min (by norm_num) (by linarith)
    · exact min_le_left _ _

theorem semantic_score_bounds (tfidf : Option ℚ) (resume_text jd_text : String)
    (h : ∀ s, tfidf = some s → 0 ≤ s ∧ s ≤ 1) :
    0 ≤ (score_semantic_similarity tfidf resume_text jd_text).1 ∧
    (score_semantic_similarity tfidf resume_text jd_text).1 ≤ 10 := by
  cases tfidf with
  | some s =>
    obtain ⟨h0, h1⟩ := h s rfl
    simp only [score_semantic_similarity]
    constructor
    · linarith
    · linarith
  | none =>
    rcases eq_or_ne (dedupFirst (pySplit (preprocess_text jd_text))) []
      with hje | hje
    · have h' : (dedupFirst (pySplit (preprocess_text jd_text))).isEmpty = true := by
        simp [hje]
      simp only [score_semantic_similarity, h', if_true]
      norm_num
    · have h' : (dedupFirst (pySplit (preprocess_text jd_text))).isEmpty = false := by
        simp [List.isEmpty_iff, hje]
      simp only [score_semantic_similarity, h', Bool.false_eq_true, if_false]
      have hpos : 0 < (dedupFirst (pySplit (preprocess_text jd_text))).length :=
        List.length_pos.mpr hje
      have h2 : (0 : ℚ) <
          ((dedupFirst (pySplit (preprocess_text jd_text))).length : ℚ) := by
        exact_mod_cast hpos
      have hmle : (((dedupFirst (pySplit (preprocess_text jd_text))).filter
          fun w => (dedupFirst (pySplit (preprocess_text resume_text))).contains w).length : ℚ) /
          ((dedupFirst (pySplit (preprocess_text jd_text))).length : ℚ) ≤ 1 := by
        rw [div_le_one h2]
        exact_mod_cast List.length_filter_le _ _
      have h0 : (0 : ℚ) ≤ (((dedupFirst (pySplit (preprocess_text jd_text))).filter
          fun w => (dedupFirst (pySplit (preprocess_text resume_text))).contains w).length : ℚ) /
          ((dedupFirst (pySplit (preprocess_text jd_text))).length : ℚ) :=
        div_nonneg (Nat.cast_nonneg _) (Nat.cast_nonneg _)
      constructor
      · exact le_min (by norm_num) (by linarith)
      · exact min_le_left _ _

/-- C1 (amended): for every input pair (and any outcome of the abstracted
vectorization, whose cosine similarity lies in [0, 1] when it succeeds), the
reported `final_score` equals the clamp to [0, 100] of the sum of the five
component scores *rounded to two decimals*, lies in [0, 100], and every
reported component score lies within its declared maximum
(40/20/10/10/10) and is nonnegative.  The original claim asserted equality
with the unrounded clamp, which the counterexample refutes. -/
theorem claim_C1 (tfidf : Option ℚ) (resume_text jd_text : String)
    (h : ∀ s, tfidf = some s → 0 ≤ s ∧ s ≤ 1) :
    (calculate_ats_score tfidf resume_text jd_text).final_score =
      round2 (max 0 (min 100
        ((score_keyword_matching resume_text jd_text).1 +
         (score_resume_sections resume_text).1 +
         (score_formatting_heuristics resume_text).1 +
         (score_action_verbs resume_text).1 +
         (score_semantic_similarity tfidf resume_text jd_text).1))) ∧
    0 ≤ (calculate_ats_score tfidf resume_text jd_text).final_score ∧
    (calculate_ats_score tfidf resume_text jd_text).final_score ≤ 100 ∧
    0 ≤ (calculate_ats_score tfidf resume_text jd_text).keyword_matching.score ∧
    (calculate_ats_score tfidf resume_text jd_text).keyword_matching.score ≤ 40 ∧
    0 ≤ (calculate_ats_score tfidf resume_text jd_text).resume_sections.score ∧
    (calculate_ats_score tfidf resume_text jd_text).resume_sections.score ≤ 20 ∧
    0 ≤ (calculate_ats_score tfidf resume_text jd_text).formatting_heuristics.score ∧
    (calculate_ats_score tfidf resume_text jd_text).formatting_heuristics.score ≤ 10 ∧
    0 ≤ (calculate_ats_score tfidf resume_text jd_text).action_verbs.score ∧
    (calculate_ats_score tfidf resume_text jd_text).action_verbs.score ≤ 10 ∧
    0 ≤ (calculate_ats_score tfidf resume_text jd_text).semantic_similarity.score ∧
    (calculate_ats_score tfidf resume_text jd_text).semantic_similarity.score ≤ 10
    := by
  obtain ⟨hk0, hk1⟩ := keyword_score_bounds resume_text jd_text
  obtain ⟨hs0, hs1⟩ := sections_score_bounds resume_text
  obtain ⟨hf0, hf1⟩ := formatting_score_bounds resume_text
  obtain ⟨ha0, ha1⟩ := action_verbs_score_bounds resume_text
  obtain ⟨hm0, hm1⟩ := semantic_score_bounds tfidf resume_text jd_text h
  have hclamp0 : (0 : ℚ) ≤ max 0 (min 100
      ((score_keyword_matching resume_text jd_text).1 +
       (score_resume_sections resume_text).1 +
       (score_formatting_heuristics resume_text).1 +
       (score_action_verbs resume_text).1 +
       (score_semantic_similarity tfidf resume_text jd_text).1)) :=
    le_max_left 0 _
  have hclamp1 : max 0 (min 100
      ((score_keyword_matching resume_text jd_text).1 +
       (score_resume_sections resume_text).1 +
       (score_formatting_heuristics resume_text).1 +
       (score_action_verbs resume_text).1 +
       (score_semantic_similarity tfidf resume_text jd_text).1)) ≤ 100 :=
    max_le (by norm_num) (min_le_left _ _)
  have hfinal := round2_bounds (a := 0) (b := 100)
    (by exact_mod_cast hclamp0) (by exact_mod_cast hclamp1)
  have hkr := round2_bounds (a := 0) (b := 40)
    (by exact_mod_cast hk0) (by exact_mod_cast hk1)
  have hsr := round2_bounds (a := 0) (b := 20)
    (by exact_mod_cast hs0) (by exact_mod_cast hs1)
  have hfr := round2_bounds (a := 0) (b := 10)
    (by exact_mod_cast hf0) (by exact_mod_cast hf1)
  have har := round2_bounds (a := 0) (b := 10)
    (by exact_mod_cast ha0) (by exact_mod_cast ha1)
  have hmr := round2_bounds (a := 0) (b := 10)
    (by exact_mod_cast hm0) (by exact_mod_cast hm1)
  have hpf : (calculate_ats_score tfidf resume_text jd_text).final_score =
      round2 (max 0 (min 100
        ((score_keyword_matching resume_text jd_text).1 +
         (score_resume_sections resume_text).1 +
         (score_formatting_heuristics resume_text).1 +
         (score_action_verbs resume_text).1 +
         (score_semantic_similarity tfidf resume_text jd_text).1))) := rfl
  have hpk : (calculate_ats_score tfidf resume_text jd_text).keyword_matching.score =
      round2 (score_keyword_matching resume_text jd_text).1 := rfl
  have hps : (calculate_ats_score tfidf resume_text jd_text).resume_sections.score =
      round2 (score_resume_sections resume_text).1 := rfl
  have hpff : (calculate_ats_score tfidf resume_text jd_text).formatting_heuristics.score =
      round2 (score_formatting_heuristics resume_text).1 := rfl
  have hpa : (calculate_ats_score tfidf resume_text jd_text).action_verbs.score =
      round2 (score_action_verbs resume_text).1 := rfl
  have hpm : (calculate_ats_score tfidf resume_text jd_text).semantic_similarity.score =
      round2 (score_semantic_similarity tfidf resume_text jd_text).1 := rfl
  rw [hpf, hpk, hps, hpff, hpa, hpm]
  refine ⟨rfl, ?_, ?_, ?_, ?_, ?_, ?_, ?_, ?_, ?_, ?_, ?_, ?_⟩
  · exact_mod_cast hfinal.1
  · exact_mod_cast hfinal.2
  · exact_mod_cast hkr.1
  · exact_mod_cast hkr.2
  · exact_mod_cast hsr.1
  · exact_mod_cast hsr.2
  · exact_mod_cast hfr.1
  · exact_mod_cast hfr.2
  · exact_mod_cast har.1
  · exact_mod_cast har.2
  · exact_mod_cast hmr.1
  · exact_mod_cast hmr.2

/-- C1 witness: the bounds instantiated on a concrete run (fallback path of
the semantic scorer, whose oracle hypothesis holds vacuously). -/
theorem claim_C1_witness :
    0 ≤ (calculate_ats_score none "the" "and the for").final_score ∧
    (calculate_ats_score none "the" "and the for").final_score ≤ 100 ∧
    (calculate_ats_score none "the" "and the for").keyword_matching.score ≤ 40 := by
  have hc := claim_C1 none "the" "and the for" (fun s hs => Option.noConfusion hs)
  exact ⟨hc.2.1, hc.2.2.1, hc.2.2.2.2.1⟩

theorem round2_eval (q : ℚ) (n : ℤ) (h1 : (n : ℚ) ≤ q * 100 + 1 / 2)
    (h2 : q * 100 + 1 / 2 < (n : ℚ) + 1) : round2 q = (n : ℚ) / 100 := by
  rw [round2, round_eq]
  rw [show ⌊q * 100 + 1 / 2⌋ = n from Int.floor_eq_iff.mpr ⟨h1, h2⟩]

/-- C1 counterexample: on resume "the" and JD "and the for" (semantic
similarity on the fallback path: both normalized documents consist only of
scikit-learn English stop words, so the vectorizer raises its
empty-vocabulary error), the reported final score is 23.67 — the 2-decimal
rounding of 71/3 + 7 — which differs both from the clamp of the sum of the
five reported component scores (23.66) and from the clamp of the sum of the
five unrounded component scores (71/3 ≈ 23.6667): the claimed exact equality
`final_score = clamp(sum of components, 0, 100)` fails. -/
theorem claim_C1_counterexample :
    (calculate_ats_score none "the" "and the for").final_score ≠
      max 0 (min 100
        ((calculate_ats_score none "the" "and the for").keyword_matching.score +
         (calculate_ats_score none "the" "and the for").resume_sections.score +
         (calculate_ats_score none "the" "and the for").formatting_heuristics.score +
         (calculate_ats_score none "the" "and the for").action_verbs.score +
         (calculate_ats_score none "the" "and the for").semantic_similarity.score)) ∧
    (calculate_ats_score none "the" "and the for").final_score ≠
      max 0 (min 100
        ((score_keyword_matching "the" "and the for").1 +
         (score_resume_sections "the").1 +
         (score_formatting_heuristics "the").1 +
         (score_action_verbs "the").1 +
         (score_semantic_similarity none "the" "and the for").1)) := by
  have hkw : (score_keyword_matching "the" "and the for").1 = 40 / 3 := by
    show ((1 : ℕ) : ℚ) / ((3 : ℕ) : ℚ) * 40 = 40 / 3
    norm_num
  have hsec : (score_resume_sections "the").1 = 0 := by
    show ((0 : ℕ) : ℚ) = 0
    norm_num
  have hfmt : (score_formatting_heuristics "the").1 = 7 := by
    have h1 : pyWordCount "the" = 1 := by decide
    have h2 : ("the".data.filter isSpecialChar).length = 0 := by decide
    have h3 : countBullets "the".data = 0 := by decide
    have h4 : "the".data.isEmpty = false := by decide
    have hfrac : specialCharFraction "the" = 0 := by
      simp only [specialCharFraction, h2, h4]
      norm_num
    simp only [score_formatting_heuristics, h1, h3, hfrac]
    norm_num
  have hav : (score_action_verbs "the").1 = 0 := by
    show ((0 : ℕ) : ℚ) / 5 * 6 = 0
    norm_num
  have hsem : (score_semantic_similarity none "the" "and the for").1 = 10 / 3 := by
    show min 10 (((1 : ℕ) : ℚ) / ((3 : ℕ) : ℚ) * 10) = 10 / 3
    rw [show (((1 : ℕ) : ℚ) / ((3 : ℕ) : ℚ) * 10) = 10 / 3 by norm_num]
    rw [min_eq_right (by norm_num : (10 : ℚ) / 3 ≤ 10)]
  have hpf : (calculate_ats_score none "the" "and the for").final_score =
      round2 (max 0 (min 100
        ((score_keyword_matching "the" "and the for").1 +
         (score_resume_sections "the").1 +
         (score_formatting_heuristics "the").1 +
         (score_action_verbs "the").1 +
         (score_semantic_similarity none "the" "and the for").1))) := rfl
  have hfinal : (calculate_ats_score none "the" "and the for").final_score =
      2367 / 100 := by
    rw [hpf, hkw, hsec, hfmt, hav, hsem]
    rw [show (40 / 3 + 0 + 7 + 0 + 10 / 3 : ℚ) = 71 / 3 by norm_num]
    rw [min_eq_right (by norm_num : (71 : ℚ) / 3 ≤ 100),
      max_eq_right (by norm_num : (0 : ℚ) ≤ 71 / 3)]
    rw [round2_eval (71 / 3) 2367 (by norm_num) (by norm_num)]
    norm_num
  have hck : (calculate_ats_score none "the" "and the for").keyword_matching.score =
      1333 / 100 := by
    show round2 (score_keyword_matching "the" "and the for").1 = 1333 / 100
    rw [hkw, round2_eval (40 / 3) 1333 (by norm_num) (by norm_num)]
    norm_num
  have hcs : (calculate_ats_score none "the" "and the for").resume_sections.score =
      0 := by
    show round2 (score_resume_sections "the").1 = 0
    rw [hsec, round2_eval 0 0 (by norm_num) (by norm_num)]
    norm_num
  have hcf : (calculate_ats_score none "the" "and the for").formatting_heuristics.score =
      7 := by
    show round2 (score_formatting_heuristics "the").1 = 7
    rw [hfmt, round2_eval 7 700 (by norm_num) (by norm_num)]
    norm_num
  have hca : (calculate_ats_score none "the" "and the for").action_verbs.score =
      0 := by
    show round2 (score_action_verbs "the").1 = 0
    rw [hav, round2_eval 0 0 (by norm_num) (by norm_num)]
    norm_num
  have hcm : (calculate_ats_score none "the" "and the for").semantic_similarity.score =
      333 / 100 := by
    show round2 (score_semantic_similarity none "the" "and the for").1 = 333 / 100
    rw [hsem, round2_eval (10 / 3) 333 (by norm_num) (by norm_num)]
    norm_num
  constructor
  · rw [hfinal, hck, hcs, hcf, hca, hcm]
    rw [show (1333 / 100 + 0 + 7 + 0 + 333 / 100 : ℚ) = 2366 / 100 by norm_num]
    rw [min_eq_right (by norm_num : (2366 : ℚ) / 100 ≤ 100),
      max_eq_right (by norm_num : (0 : ℚ) ≤ 2366 / 100)]
    norm_num
  · rw [hfinal, hkw, hsec, hfmt, hav, hsem]
    rw [show (40 / 3 + 0 + 7 + 0 + 10 / 3 : ℚ) = 71 / 3 by norm_num]
    rw [min_eq_right (by norm_num : (71 : ℚ) / 3 ≤ 100),
      max_eq_right (by norm_num : (0 : ℚ) ≤ 71 / 3)]
    norm_num

theorem toLower_toLower (c : Char) :
    Char.toLower (Char.toLower c) = Char.toLower c := by
  simp only [Char.toLower]
  by_cases h : c.toNat ≥ 65 ∧ c.toNat ≤ 90
  · rw [if_pos h]
    have hval : (c.toNat + 32).isValidChar := Or.inl (by omega)
    have htn : (Char.ofNat (c.toNat + 32)).toNat = c.toNat + 32 := by
      rw [Char.ofNat, dif_pos hval]
      rfl
    rw [htn, if_neg (by omega)]
  · rw [if_neg h, if_neg h]

theorem mapRunsAux_noWs (f : List Char → List Char) :
    ∀ (l acc : List Char), (∀ c ∈ l, pyIsSpace c = false) →
      mapRunsAux f acc l = f (acc.reverse ++ l) := by
  intro l
  induction l with
  | nil => intro acc _; rw [mapRunsAux, List.append_nil]
  | cons c cs ih =>
    intro acc h
    rw [mapRunsAux, if_neg (by simp [h c (List.mem_cons_self c cs)]),
      ih (c :: acc) (fun x hx => h x (List.mem_cons_of_mem c hx)),
      List.reverse_cons, List.append_assoc]
    rfl

theorem mapRunsAux_ws (f : List Char → List Char) (c : Char)
    (hc : pyIsSpace c = true) :
    ∀ (l acc rest : List Char), (∀ x ∈ l, pyIsSpace x = false) →
      mapRunsAux f acc (l ++ c :: rest) =
        f (acc.reverse ++ l) ++ c :: mapRunsAux f [] rest := by
  intro l
  induction l with
  | nil =>
    intro acc rest _
    rw [List.nil_append, mapRunsAux, if_pos hc, List.append_nil]
  | cons x xs ih =>
    intro acc rest h
    rw [List.cons_append, mapRunsAux,
      if_neg (by simp [h x (List.mem_cons_self x xs)]),
      ih (x :: acc) rest (fun y hy => h y (List.mem_cons_of_mem x hy)),
      List.reverse_cons, List.append_assoc]
    rfl

theorem mapRuns_noWs (f : List Char → List Char) (cs : List Char)
    (h : ∀ c ∈ cs, pyIsSpace c = false) : mapRuns f cs = f cs :=
  mapRunsAux_noWs f cs [] h

theorem mapRuns_split (f : List Char → List Char) (l : List Char) (c : Char)
    (rest : List Char) (hl : ∀ x ∈ l, pyIsSpace x = false)
    (hc : pyIsSpace c = true) :
    mapRuns f (l ++ c :: rest) = f l ++ c :: mapRuns f rest :=
  mapRunsAux_ws f c hc l [] rest hl

theorem cs_decomp (cs : List Char) :
    (∀ c ∈ cs, pyIsSpace c = false) ∨
    ∃ l c rest, cs = l ++ c :: rest ∧ (∀ x ∈ l, pyIsSpace x = false) ∧
      pyIsSpace c = true ∧ rest.length < cs.length := by
  rcases hsplit : cs.dropWhile (fun c => !pyIsSpace c) with _ | ⟨c, rest⟩
  · left
    intro c hc
    have h2 : cs = cs.takeWhile (fun c => !pyIsSpace c) := by
      conv_lhs => rw [← List.takeWhile_append_dropWhile
        (p := fun c => !pyIsSpace c) (l := cs)]
      rw [hsplit, List.append_nil]
    rw [h2] at hc
    have h3 := List.mem_takeWhile_imp hc
    simpa using h3
  · right
    refine ⟨cs.takeWhile (fun c => !pyIsSpace c), c, rest, ?_, ?_, ?_, ?_⟩
    · conv_lhs => rw [← List.takeWhile_append_dropWhile
        (p := fun c => !pyIsSpace c) (l := cs)]
      rw [hsplit]
    · intro x hx
      have h3 := List.mem_takeWhile_imp hx
      simpa using h3
    · have h3 : ¬(fun c => !pyIsSpace c) c = true := by
        intro hcon
        have h4 := List.head?_dropWhile_not (fun c => !pyIsSpace c) cs
        rw [hsplit] at h4
        simp at h4
        simp [h4] at hcon
      simpa using h3
    · conv_rhs => rw [← List.takeWhile_append_dropWhile
        (p := fun c => !pyIsSpace c) (l := cs), hsplit]
      simp [List.length_append]
      omega

theorem mapRunsAux_congr (f g : List Char → List Char) (h : ∀ r, f r = g r) :
    ∀ (cs acc : List Char), mapRunsAux f acc cs = mapRunsAux g acc cs := by
  intro cs
  induction cs with
  | nil => intro acc; rw [mapRunsAux, mapRunsAux, h]
  | cons c cs ih =>
    intro acc
    rw [mapRunsAux, mapRunsAux]
    by_cases hc : pyIsSpace c
    · rw [if_pos hc, if_pos hc, h, ih]
    · rw [if_neg hc, if_neg hc, ih]

theorem mapRuns_subset (f : List Char → List Char)
    (hf : ∀ r c, c ∈ f r → c ∈ r) (cs : List Char) :
    ∀ c' ∈ mapRuns f cs, c' ∈ cs := by
  generalize hn : cs.length = n
  induction n using Nat.strong_induction_on generalizing cs with
  | _ n ih =>
    rcases cs_decomp cs with h | ⟨l, c, rest, hcs, hl, hc, hlen⟩
    · rw [mapRuns_noWs f cs h]
      exact fun c' hc' => hf cs c' hc'
    · subst hcs
      rw [mapRuns_split f l c rest hl hc]
      intro c' hc'
      rcases List.mem_append.mp hc' with h1 | h1
      · exact List.mem_append_left _ (hf l c' h1)
      · rcases List.mem_cons.mp h1 with h2 | h2
        · exact List.mem_append_right _ (by rw [h2]; exact List.mem_cons_self c rest)
        · exact List.mem_append_right _ (List.mem_cons_of_mem c
            (ih rest.length (hn ▸ hlen) rest rfl c' h2))

theorem mapRuns_comp (f g : List Char → List Char)
    (hg : ∀ r c, c ∈ g r → c ∈ r) (cs : List Char) :
    mapRuns f (mapRuns g cs) = mapRuns (fun r => f (g r)) cs := by
  generalize hn : cs.length = n
  induction n using Nat.strong_induction_on generalizing cs with
  | _ n ih =>
    rcases cs_decomp cs with h | ⟨l, c, rest, hcs, hl, hc, hlen⟩
    · rw [mapRuns_noWs g cs h, mapRuns_noWs (fun r => f (g r)) cs h,
        mapRuns_noWs f (g cs) (fun c' hc' => h c' (hg cs c' hc'))]
    · subst hcs
      rw [mapRuns_split g l c rest hl hc,
        mapRuns_split (fun r => f (g r)) l c rest hl hc]
      have hgl : ∀ x ∈ g l, pyIsSpace x = false := fun x hx => hl x (hg l x hx)
      rw [mapRuns_split f (g l) c (mapRuns g rest) hgl hc,
        ih rest.length (hn ▸ hlen) rest rfl]

theorem mapRuns_id (f : List Char → List Char) (P : Char → Prop)
    (hf : ∀ r, (∀ c ∈ r, P c) → (∀ c ∈ r, pyIsSpace c = false) → f r = r)
    (cs : List Char) (hP : ∀ c ∈ cs, pyIsSpace c = false → P c) :
    mapRuns f cs = cs := by
  generalize hn : cs.length = n
  induction n using Nat.strong_induction_on generalizing cs with
  | _ n ih =>
    rcases cs_decomp cs with h | ⟨l, c, rest, hcs, hl, hc, hlen⟩
    · rw [mapRuns_noWs f cs h, hf cs (fun c' hc' => hP c' hc' (h c' hc')) h]
    · subst hcs
      rw [mapRuns_split f l c rest hl hc,
        hf l (fun x hx => hP x (List.mem_append_left _ hx) (hl x hx)) hl,
        ih rest.length (hn ▸ hlen) rest (fun x hx hsp =>
          hP x (List.mem_append_right _ (List.mem_cons_of_mem c hx)) hsp) rfl]

theorem urlRunDel_subset : ∀ (r : List Char) (c : Char),
    c ∈ urlRunDel r → c ∈ r := by
  intro r
  induction r with
  | nil => intro c hc; cases hc
  | cons x xs ih =>
    intro c hc
    rw [urlRunDel] at hc
    split at hc
    · cases hc
    · rcases List.mem_cons.mp hc with h | h
      · exact h ▸ List.mem_cons_self x xs
      · exact List.mem_cons_of_mem x (ih c h)

theorem urlRunDel_prefix (r : List Char) : (urlRunDel r).IsPrefix r := by
  induction r with
  | nil => exact List.nil_prefix
  | cons x xs ih =>
    rw [urlRunDel]
    split
    · exact List.nil_prefix
    · obtain ⟨t, ht⟩ := ih
      exact ⟨t, by rw [List.cons_append, ht]⟩

theorem urlHere_mono {r1 r2 : List Char} (h : r1.IsPrefix r2)
    (hu : urlHere r1 = true) : urlHere r2 = true := by
  rw [urlHere] at hu ⊢
  have hlen := h.length_le
  rcases Bool.or_eq_true_iff.mp hu with h1 | h1 <;>
    rcases Bool.and_eq_true_iff.mp h1 with ⟨hp, hn⟩
  · refine Bool.or_eq_true_iff.mpr (Or.inl (Bool.and_eq_true_iff.mpr ⟨?_, ?_⟩))
    · rw [List.isPrefixOf_iff_prefix] at hp ⊢
      exact hp.trans h
    · simp only [decide_eq_true_eq] at hn ⊢
      omega
  · refine Bool.or_eq_true_iff.mpr (Or.inr (Bool.and_eq_true_iff.mpr ⟨?_, ?_⟩))
    · rw [List.isPrefixOf_iff_prefix] at hp ⊢
      exact hp.trans h
    · simp only [decide_eq_true_eq] at hn ⊢
      omega

theorem urlRunDel_idem (r : List Char) :
    urlRunDel (urlRunDel r) = urlRunDel r := by
  induction r with
  | nil => rfl
  | cons x xs ih =>
    by_cases h : urlHere (x :: xs)
    · rw [urlRunDel, if_pos h]
      rfl
    · rw [urlRunDel, if_neg h, urlRunDel, if_neg ?_, ih]
      intro hcon
      have hpre : (x :: urlRunDel xs).IsPrefix (x :: xs) := by
        obtain ⟨t, ht⟩ := urlRunDel_prefix xs
        exact ⟨t, by rw [List.cons_append, ht]⟩
      exact h (urlHere_mono hpre hcon)

theorem emailRunDel_subset : ∀ (r : List Char) (c : Char),
    c ∈ emailRunDel r → c ∈ r := by
  intro r c hc
  rw [emailRunDel] at hc
  split at hc
  · cases hc
  · exact hc

theorem emailRunDel_idem (r : List Char) :
    emailRunDel (emailRunDel r) = emailRunDel r := by
  by_cases h : emailRunMatch r
  · have h1 : emailRunDel r = [] := by rw [emailRunDel, if_pos h]
    rw [h1]
    rfl
  · have h1 : emailRunDel r = r := by rw [emailRunDel, if_neg h]
    rw [h1]
    exact h1

theorem emailRunDel_no_at {r : List Char} (h : '@' ∉ r) :
    emailRunDel r = r := by
  rw [emailRunDel, if_neg]
  intro hcon
  rw [emailRunMatch] at hcon
  have h2 : '@' ∈ (r.drop 1).dropLast := by
    have h3 := List.contains_iff_exists_mem_beq.mp hcon
    obtain ⟨a, ha, hbeq⟩ := h3
    rwa [show a = '@' from (beq_iff_eq.mp hbeq).symm] at ha
  exact h ((List.drop_sublist 1 r).subset ((List.dropLast_sublist _).subset h2))

theorem collapseWs_cons_nonspace {d : Char} (rest : List Char)
    (hd : pyIsSpace d = false) :
    collapseWs (d :: rest) = d :: collapseWs rest := by
  rw [collapseWs.eq_def]
  simp [hd]

theorem collapseWs_space_nil {c : Char} (hc : pyIsSpace c = true) :
    collapseWs [c] = [' '] := by
  rw [collapseWs.eq_def]
  simp [hc]

theorem collapseWs_space_space {c d : Char} (rest : List Char)
    (hc : pyIsSpace c = true) (hd : pyIsSpace d = true) :
    collapseWs (c :: d :: rest) = collapseWs (d :: rest) := by
  rw [collapseWs.eq_def]
  simp [hc, hd]

theorem collapseWs_space_nonspace {c d : Char} (rest : List Char)
    (hc : pyIsSpace c = true) (hd : pyIsSpace d = false) :
    collapseWs (c :: d :: rest) = ' ' :: collapseWs (d :: rest) := by
  rw [collapseWs.eq_def]
  simp [hc, hd]

/-- The invariant maintained by whitespace collapsing: every whitespace
character is a plain space and no two adjacent characters are both
whitespace. -/
def WsCollapsed (cs : List Char) : Prop :=
  (∀ c ∈ cs, pyIsSpace c = true → c = ' ') ∧
  cs.Chain' (fun a b => ¬(pyIsSpace a = true ∧ pyIsSpace b = true))

theorem wsCollapsed_collapseWs (cs : List Char) : WsCollapsed (collapseWs cs) := by
  induction cs with
  | nil => exact ⟨fun c hc => absurd hc (List.not_mem_nil c), List.chain'_nil⟩
  | cons c cs ih =>
    by_cases hcb : pyIsSpace c
    · cases cs with
      | nil =>
        rw [collapseWs_space_nil hcb]
        refine ⟨fun x hx hsp => ?_, List.chain'_singleton _⟩
        rcases List.mem_singleton.mp hx with rfl
        rfl
      | cons d rest =>
        by_cases hdb : pyIsSpace d
        · rw [collapseWs_space_space rest hcb hdb]
          exact ih
        · have hd : pyIsSpace d = false := by simpa using hdb
          rw [collapseWs_space_nonspace rest hcb hd] at *
          rw [collapseWs_cons_nonspace rest hd] at ih ⊢
          refine ⟨fun x hx hsp => ?_, ?_⟩
          · rcases List.mem_cons.mp hx with h | h
            · exact h
            · exact ih.1 x h hsp
          · refine List.chain'_cons.mpr ⟨?_, ih.2⟩
            rintro ⟨_, hd2⟩
            rw [hd] at hd2
            cases hd2
    · have hc : pyIsSpace c = false := by simpa using hcb
      rw [collapseWs_cons_nonspace cs hc]
      refine ⟨fun x hx hsp => ?_, ?_⟩
      · rcases List.mem_cons.mp hx with h | h
        · rw [h] at hsp
          rw [hc] at hsp
          cases hsp
        · exact ih.1 x h hsp
      · cases hcoll : collapseWs cs with
        | nil => simp
        | cons y ys =>
          refine List.chain'_cons.mpr ⟨?_, hcoll ▸ ih.2⟩
          rintro ⟨hc2, _⟩
          rw [hc] at hc2
          cases hc2

theorem collapseWs_eq_self {cs : List Char} (h : WsCollapsed cs) :
    collapseWs cs = cs := by
  induction cs with
  | nil => rfl
  | cons c cs ih =>
    obtain ⟨h1, h2⟩ := h
    by_cases hcb : pyIsSpace c
    · have hcsp : c = ' ' := h1 c (List.mem_cons_self c cs) hcb
      cases cs with
      | nil =>
        rw [hcsp]
        decide
      | cons d rest =>
        have hrel := (List.chain'_cons.mp h2).1
        have hd : pyIsSpace d = false := by
          by_cases hd2 : pyIsSpace d
          · exact absurd ⟨hcb, hd2⟩ hrel
          · simpa using hd2
        rw [collapseWs_space_nonspace rest hcb hd,
          ih ⟨fun x hx hsp => h1 x (List.mem_cons_of_mem c hx) hsp,
            (List.chain'_cons.mp h2).2⟩, hcsp]
    · have hc : pyIsSpace c = false := by simpa using hcb
      rw [collapseWs_cons_nonspace cs hc,
        ih ⟨fun x hx hsp => h1 x (List.mem_cons_of_mem c hx) hsp, h2.tail⟩]

theorem pyStrip_isInfix (cs : List Char) : (pyStrip cs).IsInfix cs :=
  ((List.rdropWhile_prefix pyIsSpace (cs.dropWhile pyIsSpace)).isInfix).trans
    ((List.dropWhile_suffix pyIsSpace).isInfix)

theorem wsCollapsed_of_isInfix {cs cs' : List Char} (h : WsCollapsed cs)
    (hinf : cs'.IsInfix cs) : WsCollapsed cs' :=
  ⟨fun c hc hsp => h.1 c (hinf.sublist.subset hc) hsp,
    List.Chain'.infix h.2 hinf⟩

theorem collapseWs_idem (cs : List Char) :
    collapseWs (collapseWs cs) = collapseWs cs :=
  collapseWs_eq_self (wsCollapsed_collapseWs cs)

theorem dropWhile_pyStrip (cs : List Char) :
    (pyStrip cs).dropWhile pyIsSpace = pyStrip cs := by
  rw [pyStrip]
  cases hr : (cs.dropWhile pyIsSpace).rdropWhile pyIsSpace with
  | nil => rfl
  | cons x xs =>
    have hpre := List.rdropWhile_prefix pyIsSpace (cs.dropWhile pyIsSpace)
    rw [hr] at hpre
    obtain ⟨t, ht⟩ := hpre
    have h4 := List.head?_dropWhile_not pyIsSpace cs
    rw [← ht] at h4
    simp only [List.cons_append, List.head?_cons] at h4
    rw [List.dropWhile_cons, if_neg (by simp [h4])]

theorem pyStrip_idem (cs : List Char) : pyStrip (pyStrip cs) = pyStrip cs := by
  conv_lhs => rw [pyStrip, dropWhile_pyStrip]
  rw [pyStrip, List.rdropWhile_idempotent]

theorem collapseWs_chars (cs : List Char) :
    ∀ c' ∈ collapseWs cs, c' ∈ cs ∨ c' = ' ' := by
  induction cs with
  | nil => intro c' hc'; cases hc'
  | cons c cs ih =>
    intro c' hc'
    by_cases hcb : pyIsSpace c
    · cases cs with
      | nil =>
        rw [collapseWs_space_nil hcb] at hc'
        exact Or.inr (List.mem_singleton.mp hc')
      | cons d rest =>
        by_cases hdb : pyIsSpace d
        · rw [collapseWs_space_space rest hcb hdb] at hc'
          rcases ih c' hc' with h | h
          · exact Or.inl (List.mem_cons_of_mem c h)
          · exact Or.inr h
        · have hd : pyIsSpace d = false := by simpa using hdb
          rw [collapseWs_space_nonspace rest hcb hd] at hc'
          rcases List.mem_cons.mp hc' with h | h
          · exact Or.inr h
          · rcases ih c' h with h2 | h2
            · exact Or.inl (List.mem_cons_of_mem c h2)
            · exact Or.inr h2
    · have hc : pyIsSpace c = false := by simpa using hcb
      rw [collapseWs_cons_nonspace cs hc] at hc'
      rcases List.mem_cons.mp hc' with h | h
      · exact Or.inl (h ▸ List.mem_cons_self c cs)
      · rcases ih c' h with h2 | h2
        · exact Or.inl (List.mem_cons_of_mem c h2)
        · exact Or.inr h2

/-- C9 (amended): the normalizer maps the empty string to the empty string,
and each of its individual steps — lowercasing, URL deletion, email
deletion, punctuation deletion, whitespace collapsing, trimming — is
idempotent; the *composition* however is NOT idempotent in general (see the
counterexample: deleting punctuation may create a new URL-like substring):
it is idempotent exactly on those inputs whose normalized form is left
unchanged by a second URL-deletion pass. -/
theorem claim_C9 :
    preprocess_text "" = "" ∧
    (∀ cs : List Char,
      (cs.map Char.toLower).map Char.toLower = cs.map Char.toLower) ∧
    (∀ cs : List Char,
      mapRuns urlRunDel (mapRuns urlRunDel cs) = mapRuns urlRunDel cs) ∧
    (∀ cs : List Char,
      mapRuns emailRunDel (mapRuns emailRunDel cs) = mapRuns emailRunDel cs) ∧
    (∀ cs : List Char, stripPunct (stripPunct cs) = stripPunct cs) ∧
    (∀ cs : List Char, collapseWs (collapseWs cs) = collapseWs cs) ∧
    (∀ cs : List Char, pyStrip (pyStrip cs) = pyStrip cs) ∧
    (∀ t : String,
      mapRuns urlRunDel (preprocessL t.data) = preprocessL t.data →
      preprocess_text (preprocess_text t) = preprocess_text t) := by
  refine ⟨by decide, ?_, ?_, ?_, ?_, collapseWs_idem, pyStrip_idem, ?_⟩
  · intro cs
    rw [List.map_map]
    exact List.map_congr_left fun a _ => toLower_toLower a
  · intro cs
    rw [mapRuns_comp urlRunDel urlRunDel urlRunDel_subset]
    exact mapRunsAux_congr _ _ urlRunDel_idem cs []
  · intro cs
    rw [mapRuns_comp emailRunDel emailRunDel emailRunDel_subset]
    exact mapRunsAux_congr _ _ emailRunDel_idem cs []
  · intro cs
    rw [stripPunct, stripPunct, List.filter_filter]
    simp
  · intro t hurl
    have hy2 : preprocessL t.data = pyStrip (collapseWs (stripPunct
        (mapRuns emailRunDel (mapRuns urlRunDel (t.data.map Char.toLower))))) :=
      rfl
    have hmem : ∀ c ∈ preprocessL t.data,
        Char.toLower c = c ∧ removablePunct c = false := by
      intro c hc
      have h5 : c ∈ collapseWs (stripPunct (mapRuns emailRunDel
          (mapRuns urlRunDel (t.data.map Char.toLower)))) :=
        (pyStrip_isInfix _).sublist.subset (hy2 ▸ hc)
      rcases collapseWs_chars _ c h5 with h4 | h4
      · have hpm := List.mem_filter.mp h4
        refine ⟨?_, by simpa using hpm.2⟩
        have h3 := hpm.1
        have h2 : c ∈ mapRuns urlRunDel (t.data.map Char.toLower) :=
          mapRuns_subset emailRunDel emailRunDel_subset _ c h3
        have h1 : c ∈ t.data.map Char.toLower :=
          mapRuns_subset urlRunDel urlRunDel_subset _ c h2
        obtain ⟨a, _, rfl⟩ := List.mem_map.mp h1
        exact toLower_toLower a
      · rw [h4]
        exact ⟨by decide, by decide⟩
    have hat : ∀ c ∈ preprocessL t.data, c ≠ '@' := by
      intro c hc hcon
      have h6 := (hmem c hc).2
      rw [hcon] at h6
      cases h6
    have s1 : (preprocessL t.data).map Char.toLower = preprocessL t.data :=
      (List.map_congr_left fun a ha => (hmem a ha).1).trans
        (List.map_id (preprocessL t.data))
    have s3 : mapRuns emailRunDel (preprocessL t.data) = preprocessL t.data :=
      mapRuns_id emailRunDel (fun c => c ≠ '@')
        (fun r hr _ => emailRunDel_no_at fun hmem2 => hr '@' hmem2 rfl)
        (preprocessL t.data) (fun c hc _ => hat c hc)
    have s4 : stripPunct (preprocessL t.data) = preprocessL t.data :=
      List.filter_eq_self.mpr fun a ha => by simp [(hmem a ha).2]
    have hinv : WsCollapsed (preprocessL t.data) :=
      wsCollapsed_of_isInfix (wsCollapsed_collapseWs _) (hy2 ▸ pyStrip_isInfix _)
    have s5 : collapseWs (preprocessL t.data) = preprocessL t.data :=
      collapseWs_eq_self hinv
    have s6 : pyStrip (preprocessL t.data) = preprocessL t.data := by
      conv_lhs => rw [hy2]
      rw [pyStrip_idem, ← hy2]
    show (⟨preprocessL (preprocessL t.data)⟩ : String) = ⟨preprocessL t.data⟩
    have : preprocessL (preprocessL t.data) = preprocessL t.data := by
      show pyStrip (collapseWs (stripPunct (mapRuns emailRunDel
        (mapRuns urlRunDel ((preprocessL t.data).map Char.toLower))))) =
        preprocessL t.data
      rw [s1, hurl, s3, s4, s5, s6]
    rw [this]

/-- C9 counterexample: the normalizer is not idempotent.  On "ht:tpz x" the
first pass deletes the colon, producing "httpz x"; the second pass now sees
the URL-like substring "httpz" and deletes it, leaving "x". -/
theorem claim_C9_counterexample :
    preprocess_text (preprocess_text "ht:tpz x") ≠ preprocess_text "ht:tpz x" ∧
    preprocess_text "ht:tpz x" = "httpz x" ∧
    preprocess_text (preprocess_text "ht:tpz x") = "x" := by
  refine ⟨by decide, by decide, by decide⟩

/-- C9 witness: a benign input whose normalized form contains nothing
URL-like, on which the conditional idempotence instantiates. -/
theorem claim_C9_witness :
    mapRuns urlRunDel (preprocessL "Hello,  World!".data) =
      preprocessL "Hello,  World!".data ∧
    preprocess_text (preprocess_text "Hello,  World!") =
      preprocess_text "Hello,  World!" := by
  have h : mapRuns urlRunDel (preprocessL "Hello,  World!".data) =
      preprocessL "Hello,  World!".data := by decide
  exact ⟨h, claim_C9.2.2.2.2.2.2.2 "Hello,  World!" h⟩

end ATS
